import Mathlib

/-!
Verification of `platinasystems/opt`.

A shallow embedding of the option cells of package `opt` (`number.go`,
`duration.go`, `time.go`, `string.go`, `bool.go`, the sequences of `netip.go`)
together with the notification bus of `opt.go` and the environment binder of
`env.go`.

Conventions of the embedding

* A Go `error` result is an `Option String`: `none` is `nil`, `some t` is an
  error whose `Error()` text is `t`.
* A method with a pointer receiver takes the address of the receiver (the
  change token it publishes), the receiver, its arguments and the package
  state, and returns a `Ret`: the error, the receiver after the call and the
  package state after the call.
* The package state `Bus` holds the subscriber list `subs` and the trace of
  the lock operations and channel sends performed so far.  A send is recorded
  as completed: subscribers are taken to drain their channels.
* `Value` only reads the receiver; its shared lock is not recorded.
* Functions of the Go standard library that parse text (`fmt.Sscan`,
  `time.ParseDuration`, `json.Unmarshal`, `Time.UnmarshalText`) are arguments
  of the methods that call them.
-/

namespace Opt

/-! ## opt.go : the notification bus -/

/-- A subscriber channel, identified by a number. -/
abbrev Chan := Nat

/-- The address of an option, used as the change token. -/
abbrev Ptr := Nat

/-- Observable steps of the package: operations on `mutex` and channel sends. -/
inductive Event where
  | Lock
  | Unlock
  | RLock
  | RUnlock
  | Send (ch : Chan) (ptr : Ptr)
  deriving DecidableEq

/-- Package-level state of opt.go: `subs` and the trace of events so far. -/
structure Bus where
  subs : List Chan
  trace : List Event
  deriving DecidableEq

/-- Append one event to the trace. -/
def Bus.emit (b : Bus) (e : Event) : Bus :=
  { b with trace := b.trace ++ [e] }

/-- The function `publish` of opt.go: `for _, sub := range subs { sub <- ptr }`. -/
def publish (ptr : Ptr) (b : Bus) : Bus :=
  { b with trace := b.trace ++ b.subs.map (fun sub => Event.Send sub ptr) }

/-- Result of a pointer-receiver method: error, receiver and package state. -/
structure Ret (α : Type) where
  err : Option String
  opt : α
  bus : Bus

/-- The common tail of every `Store`:
`mutex.Lock(); defer mutex.Unlock(); opt.v = v; publish(ptr); return nil`. -/
def locked {α : Type} (ptr : Ptr) (written : α) (b : Bus) : Ret α :=
  { err := none
    opt := written
    bus := ((publish ptr (b.emit Event.Lock)).emit Event.Unlock) }

/-! ## number.go -/

/-- The constraint `Numeric` at the integer kinds: a linearly ordered type with
the text that `%v` prints for each value.  The floating-point kinds, where a
NaN fails every ordered comparison, are treated by `Number.StoreFloat`. -/
class Numeric (T : Type) extends LinearOrder T where
  Sprint : T → String

/-- Decimal text of a signed integer, as `%v` prints `int`, `int8` .. `int64`. -/
def formatInt (i : Int) : String :=
  if i < 0 then "-" ++ Nat.repr i.natAbs else Nat.repr i.natAbs

instance : Numeric Int where
  Sprint := formatInt

instance : Numeric Nat where
  Sprint := Nat.repr

/-- Go: `type Number[T Numeric] struct{ v, min, max T }`. -/
structure Number (T : Type) where
  v : T
  min : T
  max : T

/-- Go: `LimitedNumber`. -/
def LimitedNumber {T : Type} (v min max : T) : Number T :=
  { v := v, min := min, max := max }

/-- Go: `Number.Value`. -/
def Number.Value {T : Type} (opt : Number T) : T := opt.v

/-- Go: `Number.Store`.  The second comparison is against `opt.min`, as in the
source, while the message prints `opt.max`. -/
def Number.Store {T : Type} [Numeric T] (ptr : Ptr) (opt : Number T) (v : T)
    (b : Bus) : Ret (Number T) :=
  if opt.min ≠ opt.max then
    if v < opt.min then
      { err := some (Numeric.Sprint v ++ " < min\x7b" ++ Numeric.Sprint opt.min ++ "\x7d")
        opt := opt, bus := b }
    else if v > opt.min then
      { err := some (Numeric.Sprint v ++ " > max\x7b" ++ Numeric.Sprint opt.max ++ "\x7d")
        opt := opt, bus := b }
    else locked ptr { opt with v := v } b
  else locked ptr { opt with v := v } b

/-- Go: `NewNumber`; `min` and `max` are left at the zero value `zero`. -/
def NewNumber {T : Type} (zero v : T) : Number T :=
  { v := v, min := zero, max := zero }

/-- Go: `Number.Set`; `Sscan` is `fmt.Sscan` into a `T`. -/
def Number.Set {T : Type} [Numeric T] (Sscan : String → Except String T)
    (ptr : Ptr) (opt : Number T) (s : String) (b : Bus) : Ret (Number T) :=
  match Sscan s with
  | .error err => { err := some err, opt := opt, bus := b }
  | .ok v => Number.Store ptr opt v b

/-- Go: `Number.UnmarshalJSON`; `Unmarshal` is `json.Unmarshal` into a
`float64` (a value of `F`) and `conv` is the conversion `T(v)`. -/
def Number.UnmarshalJSON {T F : Type} [Numeric T]
    (Unmarshal : String → Except String F) (conv : F → T)
    (ptr : Ptr) (opt : Number T) (text : String) (b : Bus) : Ret (Number T) :=
  match Unmarshal text with
  | .error err => { err := some err, opt := opt, bus := b }
  | .ok v => Number.Store ptr opt (conv v) b

/-- Go: `Number.UnmarshalText`. -/
def Number.UnmarshalText {T : Type} [Numeric T] (Sscan : String → Except String T)
    (ptr : Ptr) (opt : Number T) (text : String) (b : Bus) : Ret (Number T) :=
  Number.Set Sscan ptr opt text b

/-! ## duration.go -/

namespace time

/-- Go: `time.Duration`, a count of nanoseconds. -/
abbrev Duration := Int

/-- One second, in nanoseconds. -/
def Second : Duration := 1000000000

/-- Go: `fmtFrac` of package time, run for `prec` digits: the fraction text
built so far, whether a non-zero digit was seen, and the remaining value. -/
def fmtFracLoop : Nat → String → Bool → Nat → String × Bool × Nat
  | 0, w, pr, v => (w, pr, v)
  | prec + 1, w, pr, v =>
    let digit := v % 10
    let pr := pr || digit != 0
    let w := if pr then Nat.repr digit ++ w else w
    fmtFracLoop prec w pr (v / 10)

/-- Go: `fmtFrac`: the text of the fraction of `v / 10^prec` without trailing
zeros (empty when the fraction is zero) and the integer part. -/
def fmtFrac (v : Nat) (prec : Nat) : String × Nat :=
  match fmtFracLoop prec "" false v with
  | (w, pr, v) => (if pr then "." ++ w else w, v)

/-- Go: `Duration.String` (the text `%v` prints for a duration). -/
def Duration.String (d : Duration) : String :=
  let u := d.natAbs
  let neg := decide (d < 0)
  let body :=
    if u < 1000000000 then
      if u = 0 then "0s"
      else
        let (prec, unit) :=
          if u < 1000 then (0, "ns")
          else if u < 1000000 then (3, "µs")
          else (6, "ms")
        let (frac, u) := fmtFrac u prec
        Nat.repr u ++ frac ++ unit
    else
      let (frac, u) := fmtFrac u 9
      let s := Nat.repr (u % 60) ++ frac ++ "s"
      let u := u / 60
      if u > 0 then
        let s := Nat.repr (u % 60) ++ "m" ++ s
        let u := u / 60
        if u > 0 then Nat.repr u ++ "h" ++ s else s
      else s
  if neg then "-" ++ body else body

end time

/-- Go: `type Duration struct{ v, min, max time.Duration }`. -/
structure Duration where
  v : time.Duration
  min : time.Duration
  max : time.Duration

/-- Go: `LimitedDuration`. -/
def LimitedDuration (v min max : time.Duration) : Duration :=
  { v := v, min := min, max := max }

/-- Go: `NewDuration`. -/
def NewDuration (v : time.Duration) : Duration :=
  { v := v, min := 0, max := 0 }

/-- Go: `Duration.Value`. -/
def Duration.Value (opt : Duration) : time.Duration := opt.v

/-- Go: `Duration.Store`. -/
def Duration.Store (ptr : Ptr) (opt : Duration) (v : time.Duration) (b : Bus) :
    Ret Duration :=
  if opt.min ≠ opt.max then
    if v < opt.min then
      { err := some (time.Duration.String v ++ " < min\x7b"
                      ++ time.Duration.String opt.min ++ "\x7d")
        opt := opt, bus := b }
    else if v > opt.max then
      { err := some (time.Duration.String v ++ " > max\x7b"
                      ++ time.Duration.String opt.max ++ "\x7d")
        opt := opt, bus := b }
    else locked ptr { opt with v := v } b
  else locked ptr { opt with v := v } b

/-- Go: `Duration.Set`; `ParseDuration` is `time.ParseDuration`. -/
def Duration.Set (ParseDuration : String → Except String time.Duration)
    (ptr : Ptr) (opt : Duration) (s : String) (b : Bus) : Ret Duration :=
  match ParseDuration s with
  | .error err => { err := some err, opt := opt, bus := b }
  | .ok v => Duration.Store ptr opt v b

/-- Go: `Duration.UnmarshalJSON`; `Unmarshal` is `json.Unmarshal` into a string. -/
def Duration.UnmarshalJSON (Unmarshal : String → Except String String)
    (ParseDuration : String → Except String time.Duration)
    (ptr : Ptr) (opt : Duration) (text : String) (b : Bus) : Ret Duration :=
  match Unmarshal text with
  | .error err => { err := some err, opt := opt, bus := b }
  | .ok s => Duration.Set ParseDuration ptr opt s b

/-- Go: `Duration.UnmarshalText`. -/
def Duration.UnmarshalText (ParseDuration : String → Except String time.Duration)
    (ptr : Ptr) (opt : Duration) (text : String) (b : Bus) : Ret Duration :=
  Duration.Set ParseDuration ptr opt text b

/-! ## time.go -/

namespace time

/-- Go: `time.Time`.  The instant is kept as nanoseconds since the zero Time
(the order of instants is the order of these numbers); `loc` stands for the
location, which `Equal`, `Before` and `After` ignore. -/
structure Time where
  nanos : Int
  loc : Nat
  deriving DecidableEq

/-- Go: `Time.Equal`: the same instant, whatever the locations. -/
def Time.Equal (t u : Time) : Bool := decide (t.nanos = u.nanos)

/-- Go: `Time.Before`. -/
def Time.Before (t u : Time) : Bool := decide (t.nanos < u.nanos)

/-- Go: `Time.After`. -/
def Time.After (t u : Time) : Bool := decide (t.nanos > u.nanos)

/-- The zero value `time.Time{}`. -/
def Time.zero : Time := { nanos := 0, loc := 0 }

end time

/-- Go: `type Time struct{ v, min, max time.Time }`. -/
structure Time where
  v : time.Time
  min : time.Time
  max : time.Time

/-- Go: `LimitedTime`. -/
def LimitedTime (v min max : time.Time) : Time :=
  { v := v, min := min, max := max }

/-- Go: `NewTime`. -/
def NewTime (v : time.Time) : Time :=
  { v := v, min := time.Time.zero, max := time.Time.zero }

/-- Go: `Time.Value`. -/
def Time.Value (opt : Time) : time.Time := opt.v

/-- Go: `Time.Store`. -/
def Time.Store (ptr : Ptr) (opt : Time) (v : time.Time) (b : Bus) : Ret Time :=
  if !(opt.min.Equal opt.max) then
    if v.Before opt.min then
      { err := some "too soon", opt := opt, bus := b }
    else if v.After opt.max then
      { err := some "too late", opt := opt, bus := b }
    else locked ptr { opt with v := v } b
  else locked ptr { opt with v := v } b

/-- Go: `Time.UnmarshalText`; `parse` is `time.Time.UnmarshalText` on a fresh
`time.Time`. -/
def Time.UnmarshalText (parse : String → Except String time.Time)
    (ptr : Ptr) (opt : Time) (text : String) (b : Bus) : Ret Time :=
  match parse text with
  | .error err => { err := some err, opt := opt, bus := b }
  | .ok v => Time.Store ptr opt v b

/-- Go: `Time.Set`. -/
def Time.Set (parse : String → Except String time.Time)
    (ptr : Ptr) (opt : Time) (s : String) (b : Bus) : Ret Time :=
  Time.UnmarshalText parse ptr opt s b

/-- Go: `Time.UnmarshalJSON`; `Unmarshal` is `json.Unmarshal` into a string. -/
def Time.UnmarshalJSON (Unmarshal : String → Except String String)
    (parse : String → Except String time.Time)
    (ptr : Ptr) (opt : Time) (text : String) (b : Bus) : Ret Time :=
  match Unmarshal text with
  | .error err => { err := some err, opt := opt, bus := b }
  | .ok s => Time.Set parse ptr opt s b

/-! ## string.go -/

namespace strconv

/-- Go: the digit table `lowerhex`. -/
def lowerhex (n : Nat) : Char := "0123456789abcdef".data.getD n '0'

/-- Go: `strconv.IsPrint`.  Runes up to U+00FF are classified inline as in the
source; `table` answers for the runes above, where Go consults its tables. -/
def IsPrint (table : Char → Bool) (r : Char) : Bool :=
  if r.toNat ≤ 0xFF then
    if 0x20 ≤ r.toNat ∧ r.toNat ≤ 0x7E then true
    else if 0xA1 ≤ r.toNat ∧ r.toNat ≤ 0xFF then r.toNat != 0xAD
    else false
  else table r

/-- Go: `appendEscapedRune` with quote `"`, neither ASCII-only nor graphic-only:
the text appended for one rune. -/
def escapedRune (table : Char → Bool) (r : Char) : String :=
  if r = '"' ∨ r = '\\' then "\\" ++ String.singleton r
  else if IsPrint table r then String.singleton r
  else if r.toNat = 7 then "\\a"
  else if r.toNat = 8 then "\\b"
  else if r.toNat = 12 then "\\f"
  else if r = '\n' then "\\n"
  else if r = '\r' then "\\r"
  else if r = '\t' then "\\t"
  else if r.toNat = 11 then "\\v"
  else if r.toNat < 0x20 ∨ r.toNat = 0x7f then
    "\\x" ++ String.mk [lowerhex (r.toNat / 16), lowerhex (r.toNat % 16)]
  else if r.toNat < 0x10000 then
    "\\u" ++ String.mk ([12, 8, 4, 0].map (fun s => lowerhex (r.toNat / 2 ^ s % 16)))
  else
    "\\U" ++ String.mk ([28, 24, 20, 16, 12, 8, 4, 0].map
      (fun s => lowerhex (r.toNat / 2 ^ s % 16)))

/-- Go: `strconv.Quote`, the text `%q` prints for a string (a string here is a
sequence of runes, so the branch for invalid UTF-8 bytes does not arise). -/
def Quote (table : Char → Bool) (s : String) : String :=
  "\"" ++ String.join (s.data.map (escapedRune table)) ++ "\""

end strconv

/-- Go: `type String[T ~string] struct { v T; aka []T }`, at `T = string`. -/
structure StringOpt where
  v : String
  aka : List String

/-- Go: `Alias`: `&String[T]{name, append(aka, name)}`. -/
def Alias (name : String) (aka : List String) : StringOpt :=
  { v := name, aka := aka ++ [name] }

/-- Go: `NewString`. -/
def NewString (v : String) : StringOpt :=
  { v := v, aka := [] }

/-- Go: `String.Value`. -/
def StringOpt.Value (opt : StringOpt) : String := opt.v

/-- Go: `String.store`. -/
def StringOpt.store (ptr : Ptr) (opt : StringOpt) (v : String) (b : Bus) :
    Ret StringOpt :=
  locked ptr { opt with v := v } b

/-- The loop of `String.Store` over the remaining aliases:
`for _, s := range opt.aka { if s == v { return opt.store(v) } }` followed by
`return fmt.Errorf("%q invalid", v)`. -/
def StringOpt.StoreLoop (Quote : String → String) (ptr : Ptr) (opt : StringOpt)
    (v : String) (b : Bus) : List String → Ret StringOpt
  | [] => { err := some (Quote v ++ " invalid"), opt := opt, bus := b }
  | s :: rest =>
    if s = v then StringOpt.store ptr opt v b
    else StringOpt.StoreLoop Quote ptr opt v b rest

/-- Go: `String.Store`; `Quote` is the rendering of the verb `%q`. -/
def StringOpt.Store (Quote : String → String) (ptr : Ptr) (opt : StringOpt)
    (v : String) (b : Bus) : Ret StringOpt :=
  if opt.aka.length = 0 then StringOpt.store ptr opt v b
  else StringOpt.StoreLoop Quote ptr opt v b opt.aka

/-- Go: `String.Set`. -/
def StringOpt.Set (Quote : String → String) (ptr : Ptr) (opt : StringOpt)
    (s : String) (b : Bus) : Ret StringOpt :=
  StringOpt.Store Quote ptr opt s b

/-- Go: `String.UnmarshalJSON`; `Unmarshal` is `json.Unmarshal` into a `T`. -/
def StringOpt.UnmarshalJSON (Quote : String → String)
    (Unmarshal : String → Except String String)
    (ptr : Ptr) (opt : StringOpt) (text : String) (b : Bus) : Ret StringOpt :=
  match Unmarshal text with
  | .error err => { err := some err, opt := opt, bus := b }
  | .ok v => StringOpt.Store Quote ptr opt v b

/-- Go: `String.UnmarshalText`. -/
def StringOpt.UnmarshalText (Quote : String → String) (ptr : Ptr) (opt : StringOpt)
    (text : String) (b : Bus) : Ret StringOpt :=
  StringOpt.Set Quote ptr opt text b

/-! ## bool.go -/

namespace fmt

/-- Go: `isSpace` of fmt/scan.go, the runes `Sscan` skips before an operand. -/
def isSpace (r : Char) : Bool :=
  let n := r.toNat
  (0x09 ≤ n && n ≤ 0x0d) || n == 0x20 || n == 0x85 || n == 0xa0 || n == 0x1680
    || (0x2000 ≤ n && n ≤ 0x200a) || n == 0x2028 || n == 0x2029 || n == 0x202f
    || n == 0x205f || n == 0x3000

/-- Go: `ss.accept`: consume the next rune when it is one of `ok`. -/
def accept (ok : List Char) : List Char → Option (List Char)
  | [] => none
  | r :: rest => if r ∈ ok then some rest else none

/-- Go: `ss.scanBool` after the leading space is skipped: the value scanned, or
`none` where the scanner reports an error (end of input, or the syntax error of
a word that starts like `true` or `false` and goes wrong). -/
def scanBool : List Char → Option Bool
  | [] => none
  | r :: rest =>
    if r = '0' then some false
    else if r = '1' then some true
    else if r = 't' ∨ r = 'T' then
      match accept ['r', 'R'] rest with
      | none => some true
      | some rest =>
        match accept ['u', 'U'] rest with
        | none => none
        | some rest =>
          match accept ['e', 'E'] rest with
          | none => none
          | some _ => some true
    else if r = 'f' ∨ r = 'F' then
      match accept ['a', 'A'] rest with
      | none => some false
      | some rest =>
        match accept ['l', 'L'] rest with
        | none => none
        | some rest =>
          match accept ['s', 'S'] rest with
          | none => none
          | some rest =>
            match accept ['e', 'E'] rest with
            | none => none
            | some _ => some false
    else some false

/-- Go: `fmt.Sscan(s, &v)` for `v` of type `bool`: the scanned value, or `none`
when the returned error is not nil.  Input after the operand is left unread. -/
def SscanBool (s : String) : Option Bool :=
  scanBool (s.data.dropWhile isSpace)

end fmt

/-- Go: `type Bool struct{ v bool }`. -/
structure BoolOpt where
  v : Bool

/-- Go: `NewBool`. -/
def NewBool (v : Bool) : BoolOpt := { v := v }

/-- Go: `Bool.Value`. -/
def BoolOpt.Value (opt : BoolOpt) : Bool := opt.v

/-- Go: `Bool.Store`. -/
def BoolOpt.Store (ptr : Ptr) (_opt : BoolOpt) (v : Bool) (b : Bus) : Ret BoolOpt :=
  locked ptr { v := v } b

/-- Go: `Bool.Set`.  `Sscan` is `fmt.Sscan` into a `bool`: the value scanned,
or `none` when its error is not nil (the method does not look at the error);
`len(s)` is the length of `s` in bytes. -/
def BoolOpt.Set (Sscan : String → Option Bool) (ptr : Ptr) (opt : BoolOpt)
    (s : String) (b : Bus) : Ret BoolOpt :=
  if s.utf8ByteSize > 0 then
    match Sscan s with
    | none => { err := none, opt := opt, bus := b }
    | some v => BoolOpt.Store ptr opt v b
  else BoolOpt.Store ptr opt true b

/-! ## Sequences of calls on one option -/

/-- Run a list of calls, in order, on one receiver. -/
def runCalls {α κ : Type} (call : α → κ → Bus → Ret α) : List κ → α → Bus → α × Bus
  | [], opt, b => (opt, b)
  | c :: cs, opt, b => runCalls call cs (call opt c b).opt (call opt c b).bus

/-- The mutating calls of a `Number[T]`. -/
inductive Number.Call (T : Type) where
  | Store (v : T)
  | Set (s : String)
  | UnmarshalText (text : String)
  | UnmarshalJSON (text : String)

/-- Dispatch one call on a `Number[T]`. -/
def Number.call {T F : Type} [Numeric T] (Sscan : String → Except String T)
    (Unmarshal : String → Except String F) (conv : F → T) (ptr : Ptr)
    (opt : Number T) (c : Number.Call T) (b : Bus) : Ret (Number T) :=
  match c with
  | .Store v => Number.Store ptr opt v b
  | .Set s => Number.Set Sscan ptr opt s b
  | .UnmarshalText text => Number.UnmarshalText Sscan ptr opt text b
  | .UnmarshalJSON text => Number.UnmarshalJSON Unmarshal conv ptr opt text b

/-- The mutating calls of a `Duration`. -/
inductive Duration.Call where
  | Store (v : time.Duration)
  | Set (s : String)
  | UnmarshalText (text : String)
  | UnmarshalJSON (text : String)

/-- Dispatch one call on a `Duration`. -/
def Duration.call (Unmarshal : String → Except String String)
    (ParseDuration : String → Except String time.Duration) (ptr : Ptr)
    (opt : Duration) (c : Duration.Call) (b : Bus) : Ret Duration :=
  match c with
  | .Store v => Duration.Store ptr opt v b
  | .Set s => Duration.Set ParseDuration ptr opt s b
  | .UnmarshalText text => Duration.UnmarshalText ParseDuration ptr opt text b
  | .UnmarshalJSON text => Duration.UnmarshalJSON Unmarshal ParseDuration ptr opt text b

/-- The mutating calls of a `Time`. -/
inductive Time.Call where
  | Store (v : time.Time)
  | Set (s : String)
  | UnmarshalText (text : String)
  | UnmarshalJSON (text : String)

/-- Dispatch one call on a `Time`. -/
def Time.call (Unmarshal : String → Except String String)
    (parse : String → Except String time.Time) (ptr : Ptr)
    (opt : Time) (c : Time.Call) (b : Bus) : Ret Time :=
  match c with
  | .Store v => Time.Store ptr opt v b
  | .Set s => Time.Set parse ptr opt s b
  | .UnmarshalText text => Time.UnmarshalText parse ptr opt text b
  | .UnmarshalJSON text => Time.UnmarshalJSON Unmarshal parse ptr opt text b

/-- The mutating calls of a `String[T]`. -/
inductive StringOpt.Call where
  | Store (v : String)
  | Set (s : String)
  | UnmarshalText (text : String)
  | UnmarshalJSON (text : String)

/-- Dispatch one call on a `String[T]`. -/
def StringOpt.call (Quote : String → String)
    (Unmarshal : String → Except String String) (ptr : Ptr)
    (opt : StringOpt) (c : StringOpt.Call) (b : Bus) : Ret StringOpt :=
  match c with
  | .Store v => StringOpt.Store Quote ptr opt v b
  | .Set s => StringOpt.Set Quote ptr opt s b
  | .UnmarshalText text => StringOpt.UnmarshalText Quote ptr opt text b
  | .UnmarshalJSON text => StringOpt.UnmarshalJSON Quote Unmarshal ptr opt text b

/-! ## opt.go : Subscribe and Unsubscribe -/

/-- The tokens delivered so far: the channel and the token of every send of
the trace, in order. -/
def Bus.sends (b : Bus) : List (Chan × Ptr) :=
  b.trace.filterMap (fun e => match e with
    | Event.Send ch ptr => some (ch, ptr)
    | _ => none)

/-- Go: `Subscribe`. -/
def Subscribe (ch : Chan) (b : Bus) : Bus :=
  ({ (b.emit Event.Lock) with subs := b.subs ++ [ch] }).emit Event.Unlock

/-- Go: the slice expression `s[lo:]`; `none` is the run-time panic of an index
out of range. -/
def sliceFrom {α : Type} (s : List α) (lo : Int) : Option (List α) :=
  if 0 ≤ lo ∧ lo ≤ s.length then some (s.drop lo.toNat) else none

/-- Go: the slice expression `s[:hi]` with `hi` checked against the length;
`none` is the run-time panic of an index out of range. -/
def sliceTo {α : Type} (s : List α) (hi : Int) : Option (List α) :=
  if 0 ≤ hi ∧ hi ≤ s.length then some (s.take hi.toNat) else none

/-- Go: the builtin `copy(dst, src)`: the contents of `dst` afterwards, its
first `min(len(dst), len(src))` elements replaced by those of `src`. -/
def copy {α : Type} (dst src : List α) : List α :=
  src.take dst.length ++ dst.drop src.length

/-- The loop of `Unsubscribe` from index `i` over the elements still to visit:
`for i, sub := range subs { if ch == sub { copy(subs[i:], subs[i+1:]);
subs = subs[:len(subs)-1]; break } }`.  The result is `subs` after the loop. -/
def Unsubscribe.range (ch : Chan) (subs : List Chan) : Nat → List Chan → Option (List Chan)
  | _, [] => some subs
  | i, sub :: rest =>
    if ch = sub then
      match sliceFrom subs i, sliceFrom subs (i + 1) with
      | some dst, some src =>
        sliceTo (subs.take i ++ copy dst src)
          (((subs.take i ++ copy dst src).length : Int) - 1)
      | _, _ => none
    else Unsubscribe.range ch subs (i + 1) rest

/-- Go: `Unsubscribe`; `none` is a run-time panic. -/
def Unsubscribe (ch : Chan) (b : Bus) : Option Bus :=
  match Unsubscribe.range ch b.subs 0 b.subs with
  | some subs => some (({ (b.emit Event.Lock) with subs := subs }).emit Event.Unlock)
  | none => none

/-! ## env.go -/

namespace strings

/-- Go: `strings.Index(s, substr)` for a `substr` of one ASCII character `c`,
scanning from position `i`: the position of the first `c`, or -1.  Positions
count runes; cutting a string at an ASCII character gives the same pieces
whether positions count runes or bytes. -/
def indexFrom (c : Char) : List Char → Nat → Int
  | [], _ => -1
  | x :: xs, i => if x = c then (i : Int) else indexFrom c xs (i + 1)

/-- Go: `strings.Index(s, substr)` for a `substr` of one ASCII character. -/
def Index (s : String) (c : Char) : Int := indexFrom c s.data 0

/-- Go: `strings.Contains(s, substr)`: `substr` occurs in `s` as a contiguous
piece. -/
def Contains (s substr : String) : Bool :=
  s.data.tails.any (fun t => substr.data.isPrefixOf t)

end strings

/-- A setter of the map: `func(string) error`, acting on a program state `σ`. -/
abbrev Setter (σ : Type) := String → σ → Option String × σ

/-- Go: `type Env map[string]func(string) error`, as the lookup `env[k]`. -/
abbrev Env (σ : Type) := String → Option (Setter σ)

/-- One invocation `set(v)` made by `Env.Set`: the key looked up, the argument
passed and the error returned. -/
structure Env.Call where
  key : String
  arg : String
  err : Option String
  deriving DecidableEq

/-- Result of `Env.Set`: the error, the program state and the invocations made
so far, in order. -/
structure Env.Ret (σ : Type) where
  err : Option String
  state : σ
  calls : List Env.Call

/-- The key and the value `Env.Set` takes from one token:
`var v string; if eq := strings.Index(k, "="); eq > 0 { v = k[eq+1:]; k = k[:eq] }`. -/
def Env.keyValue (k : String) : String × String :=
  if strings.Index k '=' > 0 then
    (String.mk (k.data.take (strings.Index k '=').toNat),
     String.mk (k.data.drop ((strings.Index k '=').toNat + 1)))
  else (k, "")

/-- The loop of `Env.Set` over the tokens still to visit. -/
def Env.range {σ : Type} (env : Env σ) : List String → σ → List Env.Call → Env.Ret σ
  | [], s, log => { err := none, state := s, calls := log }
  | k :: rest, s, log =>
    if k.utf8ByteSize = 0 then Env.range env rest s log
    else
      match env (Env.keyValue k).1 with
      | some set =>
        match set (Env.keyValue k).2 s with
        | (some err, s1) =>
          { err := some err, state := s1
            calls := log ++ [⟨(Env.keyValue k).1, (Env.keyValue k).2, some err⟩] }
        | (none, s1) =>
          Env.range env rest s1 (log ++ [⟨(Env.keyValue k).1, (Env.keyValue k).2, none⟩])
      | none => Env.range env rest s log

/-- Go: `Env.Set`; `environ` is the result of `os.Environ()`. -/
def Env.Set {σ : Type} (env : Env σ) (environ : List String) (args : List String)
    (s : σ) : Env.Ret σ :=
  if args.length = 0 then Env.range env environ s []
  else Env.range env args s []

namespace spec

/-- The key of a token in the words of the specification: the text before the
first `=`, the whole token when it has none. -/
def keyOf (tok : String) : String :=
  String.mk (tok.data.takeWhile (fun c => c != '='))

/-- The argument of a token in the words of the specification: the text after
the first `=`, the empty string for a bare key. -/
def argOf (tok : String) : String :=
  String.mk ((tok.data.dropWhile (fun c => c != '=')).drop 1)

/-- The invocations the specification expects for a list of tokens: one per
non-empty token whose key is in the map, in list order. -/
def calls {σ : Type} (env : Env σ) (args : List String) : List (String × String) :=
  args.filterMap (fun tok =>
    if tok = "" then none
    else if (env (keyOf tok)).isSome then some (keyOf tok, argOf tok)
    else none)

/-- The state after making a list of invocations in order, each on the state
the one before left. -/
def apply {σ : Type} (env : Env σ) : List (String × String) → σ → σ
  | [], s => s
  | (k, v) :: rest, s =>
    match env k with
    | some set => apply env rest (set v s).2
    | none => apply env rest s

end spec


/-! ## Sequence options: number.go, string.go, netip.go -/

/-- A value of type `interface{}` as a TOML decoder hands it to `UnmarshalTOML`:
`F` is the type of the `float64` values, `slice` is `[]interface{}` and `other`
stands for a value of any other dynamic type, named as `%T` prints it. -/
inductive Any (F : Type) where
  | nil
  | bool (b : Bool)
  | int64 (i : Int)
  | float64 (f : F)
  | string (s : String)
  | slice (l : List (Any F))
  | other (typeName : String)

/-- The text `%T` prints for a value. -/
def Any.typeName {F : Type} : Any F → String
  | .nil => "<nil>"
  | .bool _ => "bool"
  | .int64 _ => "int64"
  | .float64 _ => "float64"
  | .string _ => "string"
  | .slice _ => "[]interface \x7b\x7d"
  | .other n => n

/-- Go: `type Numbers[T Numeric] struct{ v []T }`. -/
structure Numbers (T : Type) where
  v : List T

/-- Go: `NewNumbers`. -/
def NewNumbers {T : Type} (v : List T) : Numbers T := { v := v }

/-- Go: `Numbers.Value`. -/
def Numbers.Value {T : Type} (opt : Numbers T) : List T := opt.v

/-- Go: `Numbers.Store`. -/
def Numbers.Store {T : Type} (ptr : Ptr) (_opt : Numbers T) (v : List T) (b : Bus) :
    Ret (Numbers T) :=
  locked ptr { v := v } b

/-- The loop of `Numbers.UnmarshalTOML` from index `i`: every `int64` and
`float64` element is converted and appended to `v`, any other element ends the
loop with the error `[i]{type} invalid`. -/
def Numbers.UnmarshalTOML.range {T F : Type} (ofInt64 : Int → T) (ofFloat64 : F → T) :
    Nat → List (Any F) → List T → Except String (List T)
  | _, [], v => .ok v
  | i, iv :: rest, v =>
    match iv with
    | .int64 t => Numbers.UnmarshalTOML.range ofInt64 ofFloat64 (i + 1) rest (v ++ [ofInt64 t])
    | .float64 t =>
      Numbers.UnmarshalTOML.range ofInt64 ofFloat64 (i + 1) rest (v ++ [ofFloat64 t])
    | t => .error ("[" ++ Nat.repr i ++ "]\x7b" ++ t.typeName ++ "\x7d invalid")

/-- Go: `Numbers.UnmarshalTOML`; `ofInt64` and `ofFloat64` are the conversions
`T(t)` from `int64` and from `float64`. -/
def Numbers.UnmarshalTOML {T F : Type} (ofInt64 : Int → T) (ofFloat64 : F → T)
    (ptr : Ptr) (opt : Numbers T) (input : Any F) (b : Bus) : Ret (Numbers T) :=
  match input with
  | .slice l =>
    match Numbers.UnmarshalTOML.range ofInt64 ofFloat64 0 l [] with
    | .error err => { err := some err, opt := opt, bus := b }
    | .ok v => Numbers.Store ptr opt v b
  | t => { err := some (t.typeName ++ " invalid"), opt := opt, bus := b }

/-- Go: `type Strings[T ~string] struct{ v []T }`, at `T = string`. -/
structure Strings where
  v : List String

/-- Go: `NewStrings`. -/
def NewStrings (v : List String) : Strings := { v := v }

/-- Go: `Strings.Value`. -/
def Strings.Value (opt : Strings) : List String := opt.v

/-- Go: `Strings.Store`. -/
def Strings.Store (ptr : Ptr) (_opt : Strings) (v : List String) (b : Bus) : Ret Strings :=
  locked ptr { v := v } b

/-- The loop of `Strings.UnmarshalTOML` from index `i`: a string element is
written to `v[i]`, any other element ends the loop with an error. -/
def Strings.UnmarshalTOML.range {F : Type} :
    Nat → List (Any F) → List String → Except String (List String)
  | _, [], v => .ok v
  | i, iv :: rest, v =>
    match iv with
    | .string s => Strings.UnmarshalTOML.range (i + 1) rest (v.set i s)
    | t => .error ("[" ++ Nat.repr i ++ "]\x7b" ++ t.typeName ++ "\x7d invalid")

/-- Go: `Strings.UnmarshalTOML`; `v := make([]T, len(l))` starts as empty
strings. -/
def Strings.UnmarshalTOML {F : Type} (ptr : Ptr) (opt : Strings) (input : Any F)
    (b : Bus) : Ret Strings :=
  match input with
  | .slice l =>
    match Strings.UnmarshalTOML.range 0 l (List.replicate l.length "") with
    | .error err => { err := some err, opt := opt, bus := b }
    | .ok v => Strings.Store ptr opt v b
  | t => { err := some (t.typeName ++ " invalid"), opt := opt, bus := b }

/-- The loop of `Strings.String` from index `i`, `sb` being the text built so
far: a space before every element but the first, then the element, quoted when
`strings.Contains(string(s), " \t")`. -/
def Strings.StringLoop (Quote : String → String) : Nat → List String → String → String
  | _, [], sb => sb
  | i, s :: rest, sb =>
    Strings.StringLoop Quote (i + 1) rest
      ((if i > 0 then sb ++ " " else sb)
        ++ (if strings.Contains s " \t" then Quote s else s))

/-- Go: `Strings.String`; `Quote` is the rendering of the verb `%q`. -/
def Strings.String (Quote : String → String) (opt : Strings) : String :=
  Strings.StringLoop Quote 0 opt.v "[" ++ "]"

/-- Go: `type NetIPs[T ...] struct{ v []T }`. -/
structure NetIPs (T : Type) where
  v : List T

/-- Go: `NetIPs.Value`. -/
def NetIPs.Value {T : Type} (opt : NetIPs T) : List T := opt.v

/-- Go: `NetIPs.Store`. -/
def NetIPs.Store {T : Type} (ptr : Ptr) (_opt : NetIPs T) (v : List T) (b : Bus) :
    Ret (NetIPs T) :=
  locked ptr { v := v } b

/-- The loop of `NetIPs.UnmarshalTOML` from index `i`: a string element is
parsed into `vs[i]`; an element of another type, or one that does not parse,
ends the loop with an error. -/
def NetIPs.UnmarshalTOML.range {T F : Type} (UnmarshalText : String → Except String T) :
    Nat → List (Any F) → List T → Except String (List T)
  | _, [], vs => .ok vs
  | i, iv :: rest, vs =>
    match iv with
    | .string s =>
      match UnmarshalText s with
      | .error err => .error err
      | .ok t => NetIPs.UnmarshalTOML.range UnmarshalText (i + 1) rest (vs.set i t)
    | t => .error ("[" ++ Nat.repr i ++ "]\x7b" ++ t.typeName ++ "\x7d invalid")

/-- Go: `NetIPs.UnmarshalTOML`; `UnmarshalText` is the method of `T` that
`textunmarshaler` returns, run on a zero `T`, and `zero` is that zero value. -/
def NetIPs.UnmarshalTOML {T F : Type} (UnmarshalText : String → Except String T)
    (zero : T) (ptr : Ptr) (opt : NetIPs T) (input : Any F) (b : Bus) : Ret (NetIPs T) :=
  match input with
  | .slice l =>
    match NetIPs.UnmarshalTOML.range UnmarshalText 0 l (List.replicate l.length zero) with
    | .error err => { err := some err, opt := opt, bus := b }
    | .ok vs => NetIPs.Store ptr opt vs b
  | t => { err := some (t.typeName ++ " invalid"), opt := opt, bus := b }

namespace spec

/-- The conversion of one element of a numeric list, in the words of the
specification: a number converts, anything else is a type mismatch. -/
def convertNumber {T F : Type} (ofInt64 : Int → T) (ofFloat64 : F → T) : Any F → Option T
  | .int64 t => some (ofInt64 t)
  | .float64 t => some (ofFloat64 t)
  | _ => none

/-- The conversion of one element of a string list: only a string converts. -/
def convertString {F : Type} : Any F → Option String
  | .string s => some s
  | _ => none

/-- The conversion of one element of a list of network values: a string that
parses converts. -/
def convertNetIP {T F : Type} (UnmarshalText : String → Except String T) : Any F → Option T
  | .string s =>
    match UnmarshalText s with
    | .ok t => some t
    | .error _ => none
  | _ => none

end spec

/-! ## JSON numbers: the conversions to and from float64 -/

namespace float64

/-- The number of binary digits of `n`, counted with `fuel` steps. -/
def bitLenAux : Nat → Nat → Nat
  | 0, _ => 0
  | fuel + 1, n => if n = 0 then 0 else bitLenAux fuel (n / 2) + 1

/-- The number of binary digits of `n`. -/
def bitLen (n : Nat) : Nat := bitLenAux n n

/-- The value of `float64(n)` for a natural number below 2^1024: `n` itself
when it fits the 53 binary digits of the significand, otherwise `n` rounded to
53 significant binary digits, to nearest, ties to even. -/
def roundNat (n : Nat) : Nat :=
  if bitLen n ≤ 53 then n
  else
    let shift := bitLen n - 53
    let q := n / 2 ^ shift
    let r := n % 2 ^ shift
    let half := 2 ^ (shift - 1)
    (if r > half ∨ (r = half ∧ q % 2 = 1) then q + 1 else q) * 2 ^ shift

/-- The value of the conversion `float64(v)` of an integer `v`: always a whole
number, kept as an integer. -/
def ofInt (v : Int) : Int :=
  if v < 0 then -((roundNat v.natAbs : Nat) : Int) else ((roundNat v.natAbs : Nat) : Int)

/-- The conversion `T(f)` of a whole-number float64 `f` to an integer kind with
values `lo .. hi`: `f` when it is in range; otherwise the result depends on the
implementation, given by `impl`. -/
def toInt (lo hi : Int) (impl : Int → Int) (f : Int) : Int :=
  if lo ≤ f ∧ f ≤ hi then f else impl f

end float64

/-- Go: `Number.MarshalJSON`: `json.Marshal(float64(v))`; `toFloat` is the
conversion to `float64` and `Marshal` is `json.Marshal` of a `float64`. -/
def Number.MarshalJSON {T F : Type} (toFloat : T → F) (Marshal : F → Except String String)
    (opt : Number T) : Except String String :=
  Marshal (toFloat opt.Value)


/-- The deliveries of one successful `Store` that publishes `ptr` in package
state `b` and ends in `b1`: the registry is as before, and the tokens sent are
one `ptr` for each entry of the registry, in registration order, and no other. -/
def Delivers (ptr : Ptr) (b b1 : Bus) : Prop :=
  b1.subs = b.subs ∧ b1.sends = b.sends ++ b.subs.map (fun ch => (ch, ptr))


/-! ## Order of the events of a Store, and the text of number lists -/

/-- The events of one successful `Store` that publishes `ptr` in package state
`b` and ends in `b1`, in the order the code performs them: `mutex.Lock()`, the
sends of `publish` to each entry of the registry, and then the deferred
`mutex.Unlock()`. -/
def PublishesLocked (ptr : Ptr) (b b1 : Bus) : Prop :=
  b1.trace = b.trace ++ Event.Lock :: (b.subs.map (fun ch => Event.Send ch ptr) ++ [Event.Unlock])

namespace spec

/-- The tokens of a trace that are sent while the exclusive lock is held;
`held` tells whether it is held where the trace starts. -/
def sentLocked : Bool → List Event → List (Chan × Ptr)
  | _, [] => []
  | _, Event.Lock :: rest => sentLocked true rest
  | _, Event.Unlock :: rest => sentLocked false rest
  | held, Event.Send ch ptr :: rest =>
    if held then (ch, ptr) :: sentLocked held rest else sentLocked held rest
  | held, _ :: rest => sentLocked held rest

/-- The tokens of a trace that are sent while the exclusive lock is not held;
`held` tells whether it is held where the trace starts. -/
def sentUnlocked : Bool → List Event → List (Chan × Ptr)
  | _, [] => []
  | _, Event.Lock :: rest => sentUnlocked true rest
  | _, Event.Unlock :: rest => sentUnlocked false rest
  | held, Event.Send ch ptr :: rest =>
    if held then sentUnlocked held rest else (ch, ptr) :: sentUnlocked held rest
  | held, _ :: rest => sentUnlocked held rest

/-- The texts of a list joined by a separator. -/
def joined (sep : String) : List String → String
  | [] => ""
  | [x] => x
  | x :: y :: rest => x ++ sep ++ joined sep (y :: rest)

end spec

/-- The loop of `Numbers.String` from index `i`, `sb` being the text built so
far: `if i > 0 { fmt.Fprint(sb, ", ") }; fmt.Fprint(sb, n)`. -/
def Numbers.StringLoop {T : Type} [Numeric T] : Nat → List T → String → String
  | _, [], sb => sb
  | i, n :: rest, sb =>
    Numbers.StringLoop (i + 1) rest ((if i > 0 then sb ++ ", " else sb) ++ Numeric.Sprint n)

/-- Go: `Numbers.String` (and `Numbers.MarshalText`, which returns its bytes). -/
def Numbers.String {T : Type} [Numeric T] (opt : Numbers T) : String :=
  Numbers.StringLoop 0 opt.v "[" ++ "]"


/-! ## Boolean texts, in the words of the specification -/

namespace spec

/-- The boolean literals: the texts Go takes for a boolean (`strconv.ParseBool`),
with the value each stands for. -/
def boolLiteral (s : String) : Option Bool :=
  if s ∈ ["1", "t", "T", "TRUE", "true", "True"] then some true
  else if s ∈ ["0", "f", "F", "FALSE", "false", "False"] then some false
  else none

/-- The text `w` starts with one character out of each set of `pattern`, in
order. -/
def startsLike : List (List Char) → List Char → Bool
  | [], _ => true
  | _ :: _, [] => false
  | p :: ps, c :: cs => decide (c ∈ p) && startsLike ps cs

/-- The non-empty texts for which scanning a boolean reports an error: after
the leading white space nothing is left, or the text starts like `tr` and does
not go on to `true`, or starts like `fa` and does not go on to `false`
(letters of either case). -/
def scanFails (s : String) : Bool :=
  (s.data.dropWhile fmt.isSpace).isEmpty
    || (startsLike [['t', 'T'], ['r', 'R']] (s.data.dropWhile fmt.isSpace)
        && !startsLike [['t', 'T'], ['r', 'R'], ['u', 'U'], ['e', 'E']]
              (s.data.dropWhile fmt.isSpace))
    || (startsLike [['f', 'F'], ['a', 'A']] (s.data.dropWhile fmt.isSpace)
        && !startsLike [['f', 'F'], ['a', 'A'], ['l', 'L'], ['s', 'S'], ['e', 'E']]
              (s.data.dropWhile fmt.isSpace))

end spec


/-! ## number.go at the floating-point kinds -/

namespace float64

/-- A `float64` as comparisons see it: `NaN`, or a number, the numbers being a
linearly ordered type `R`. -/
inductive Val (R : Type) where
  | NaN
  | num (x : R)
  deriving DecidableEq

/-- Go: `a < b` on `float64`: false as soon as one side is NaN. -/
def Val.lt {R : Type} [LinearOrder R] : Val R → Val R → Bool
  | .num a, .num b => decide (a < b)
  | _, _ => false

/-- Go: `a <= b` on `float64`: false as soon as one side is NaN. -/
def Val.le {R : Type} [LinearOrder R] : Val R → Val R → Bool
  | .num a, .num b => decide (a ≤ b)
  | _, _ => false

/-- Go: `a != b` on `float64`: true as soon as one side is NaN. -/
def Val.ne {R : Type} [LinearOrder R] : Val R → Val R → Bool
  | .num a, .num b => decide (a ≠ b)
  | _, _ => true

end float64

/-- Go: `Number.Store` at `T = float64` (or `float32`): the statements of
`Number.Store`, with the comparisons of floating-point values; `Sprint` is the
text `%v` prints for a value. -/
def Number.StoreFloat {R : Type} [LinearOrder R] (Sprint : float64.Val R → String)
    (ptr : Ptr) (opt : Number (float64.Val R)) (v : float64.Val R) (b : Bus) :
    Ret (Number (float64.Val R)) :=
  if float64.Val.ne opt.min opt.max then
    if float64.Val.lt v opt.min then
      { err := some (Sprint v ++ " < min\x7b" ++ Sprint opt.min ++ "\x7d")
        opt := opt, bus := b }
    else if float64.Val.lt opt.min v then
      { err := some (Sprint v ++ " > max\x7b" ++ Sprint opt.max ++ "\x7d")
        opt := opt, bus := b }
    else locked ptr { opt with v := v } b
  else locked ptr { opt with v := v } b


/-! ## Theorems -/

/-- C1: `Number.Store` should accept every value inside the bounds; on
`LimitedNumber[int](100, 100, 200)` the code rejects `Store(150)` with the text
of the upper-bound error, although `100 <= 150 <= 200`, and keeps the old
value. -/
theorem Number_Store_rejects_inside_bounds :
    (100 : Int) < 200 ∧ (100 : Int) ≤ 150 ∧ (150 : Int) ≤ 200 ∧
    (Number.Store 0 (LimitedNumber (100 : Int) 100 200) 150 ⟨[], []⟩).err
      = some "150 > max\x7b200\x7d" ∧
    (Number.Store 0 (LimitedNumber (100 : Int) 100 200) 150 ⟨[], []⟩).opt.Value = 100 := by
  decide

/-- C2: with bounds `min < max`, `Number.Store` of a value below `min` or above
`max` returns an error and leaves `Value()` as it was; above `max` the error
text is the value, then ` > max`, then the maximum in braces. -/
theorem Number_Store_outside_bounds {T : Type} [Numeric T] (ptr : Ptr)
    (opt : Number T) (v : T) (b : Bus)
    (hb : opt.min < opt.max) (hv : v < opt.min ∨ v > opt.max) :
    (Number.Store ptr opt v b).err ≠ none ∧
    (Number.Store ptr opt v b).opt.Value = opt.Value ∧
    (v > opt.max → (Number.Store ptr opt v b).err
      = some (Numeric.Sprint v ++ " > max\x7b" ++ Numeric.Sprint opt.max ++ "\x7d")) := by
  have hne : opt.min ≠ opt.max := ne_of_lt hb
  by_cases h1 : v < opt.min
  · refine ⟨?_, ?_, ?_⟩
    · simp [Number.Store, hne, h1]
    · simp [Number.Store, hne, h1]
    · intro h2
      exact absurd (lt_trans (lt_trans h1 hb) h2) (lt_irrefl v)
  · have h2 : v > opt.max := hv.resolve_left h1
    have h3 : v > opt.min := lt_trans hb h2
    refine ⟨?_, ?_, ?_⟩
    · simp [Number.Store, hne, h1, h3]
    · simp [Number.Store, hne, h1, h3]
    · intro _
      simp [Number.Store, hne, h1, h3]

/-- C2 at the test `ExampleLimitedNumber`:
`LimitedNumber[uint](100, 100, 200).Store(201)` gives `201 > max{200}`. -/
theorem Number_Store_outside_bounds_witness :
    (Number.Store 0 (LimitedNumber (100 : Nat) 100 200) 201 ⟨[], []⟩).err
      = some "201 > max\x7b200\x7d" ∧
    (Number.Store 0 (LimitedNumber (100 : Nat) 100 200) 201 ⟨[], []⟩).opt.Value = 100 :=
  ⟨(Number_Store_outside_bounds 0 (LimitedNumber (100 : Nat) 100 200) 201 ⟨[], []⟩
      (by decide) (Or.inr (by decide))).2.2 (by decide),
   (Number_Store_outside_bounds 0 (LimitedNumber (100 : Nat) 100 200) 201 ⟨[], []⟩
      (by decide) (Or.inr (by decide))).2.1⟩

/-- C3: on a `Duration` built by `LimitedDuration(v0, min, max)` with
`min < max`, `Store(v)` with `min <= v <= max` returns nil and `Value()` is
then `v`. -/
theorem Duration_Store_inside_bounds (ptr : Ptr) (v0 min max v : time.Duration)
    (b : Bus) (_hb : min < max) (h1 : min ≤ v) (h2 : v ≤ max) :
    (Duration.Store ptr (LimitedDuration v0 min max) v b).err = none ∧
    (Duration.Store ptr (LimitedDuration v0 min max) v b).opt.Value = v := by
  have h1' : ¬ v < min := not_lt.mpr h1
  have h2' : ¬ v > max := not_lt.mpr h2
  simp [Duration.Store, LimitedDuration, h1', h2', locked, Duration.Value]

/-- C3 at `LimitedDuration(3s, 1s, 5s).Store(4s)`. -/
theorem Duration_Store_inside_bounds_witness :
    (Duration.Store 0 (LimitedDuration (3 * time.Second) (1 * time.Second)
        (5 * time.Second)) (4 * time.Second) ⟨[], []⟩).err = none ∧
    (Duration.Store 0 (LimitedDuration (3 * time.Second) (1 * time.Second)
        (5 * time.Second)) (4 * time.Second) ⟨[], []⟩).opt.Value = 4 * time.Second :=
  Duration_Store_inside_bounds 0 (3 * time.Second) (1 * time.Second) (5 * time.Second)
    (4 * time.Second) ⟨[], []⟩ (by decide) (by decide) (by decide)

/-- C4: with bounds `min < max`, `Duration.Store` of a duration outside
`[min, max]` returns an error and leaves `Value()` as it was; above `max` the
text is `<v> > max{<max>}`, below `min` it is `<v> < min{<min>}`. -/
theorem Duration_Store_outside_bounds (ptr : Ptr) (opt : Duration)
    (v : time.Duration) (b : Bus)
    (hb : opt.min < opt.max) (hv : v < opt.min ∨ v > opt.max) :
    (Duration.Store ptr opt v b).err ≠ none ∧
    (Duration.Store ptr opt v b).opt.Value = opt.Value ∧
    (v > opt.max → (Duration.Store ptr opt v b).err
      = some (time.Duration.String v ++ " > max\x7b"
              ++ time.Duration.String opt.max ++ "\x7d")) ∧
    (v < opt.min → (Duration.Store ptr opt v b).err
      = some (time.Duration.String v ++ " < min\x7b"
              ++ time.Duration.String opt.min ++ "\x7d")) := by
  have hne : opt.min ≠ opt.max := ne_of_lt hb
  by_cases h1 : v < opt.min
  · have h2 : ¬ v > opt.max := fun h => absurd (lt_trans (lt_trans h1 hb) h) (lt_irrefl v)
    simp [Duration.Store, hne, h1, h2]
  · have h2 : v > opt.max := hv.resolve_left h1
    simp [Duration.Store, hne, h1, h2]

/-- C4 at the test `ExampleLimitedDuration`:
`LimitedDuration(3s, 1s, 5s).Store(10s)` gives `10s > max{5s}`, and `Value()`
is still 3s. -/
theorem Duration_Store_outside_bounds_witness :
    (Duration.Store 0 (LimitedDuration (3 * time.Second) (1 * time.Second)
        (5 * time.Second)) (10 * time.Second) ⟨[], []⟩).err
      = some "10s > max\x7b5s\x7d" ∧
    (Duration.Store 0 (LimitedDuration (3 * time.Second) (1 * time.Second)
        (5 * time.Second)) (10 * time.Second) ⟨[], []⟩).opt.Value = 3 * time.Second :=
  ⟨(Duration_Store_outside_bounds 0 (LimitedDuration (3 * time.Second) (1 * time.Second)
      (5 * time.Second)) (10 * time.Second) ⟨[], []⟩
      (by decide) (Or.inr (by decide))).2.2.1 (by decide),
   (Duration_Store_outside_bounds 0 (LimitedDuration (3 * time.Second) (1 * time.Second)
      (5 * time.Second)) (10 * time.Second) ⟨[], []⟩
      (by decide) (Or.inr (by decide))).2.1⟩

/-! ### Invariants along sequences of calls -/

/-- A property of the receiver kept by every call is kept by every sequence
of calls. -/
theorem runCalls_keeps {α κ : Type} (call : α → κ → Bus → Ret α) (P : α → Prop)
    (hstep : ∀ opt c b, P opt → P (call opt c b).opt) :
    ∀ (calls : List κ) (opt : α) (b : Bus), P opt → P (runCalls call calls opt b).1 := by
  intro calls
  induction calls with
  | nil => intro opt b h; exact h
  | cons c cs ih =>
    intro opt b h
    exact ih (call opt c b).opt (call opt c b).bus (hstep opt c b h)

/-- `Number.Store` keeps the bounds, and keeps the value inside them. -/
theorem Number_Store_keeps {T : Type} [Numeric T] (mn mx : T) (ptr : Ptr)
    (opt : Number T) (v : T) (b : Bus)
    (h : opt.min = mn ∧ opt.max = mx ∧ mn ≠ mx ∧ mn ≤ opt.v ∧ opt.v ≤ mx) :
    (Number.Store ptr opt v b).opt.min = mn ∧ (Number.Store ptr opt v b).opt.max = mx ∧
    mn ≠ mx ∧ mn ≤ (Number.Store ptr opt v b).opt.v ∧
    (Number.Store ptr opt v b).opt.v ≤ mx := by
  obtain ⟨h1, h2, h3, h4, h5⟩ := h
  have hne : opt.min ≠ opt.max := by rw [h1, h2]; exact h3
  by_cases c1 : v < opt.min
  · simp [Number.Store, hne, c1]
    exact ⟨h1, h2, h3, h4, h5⟩
  · by_cases c2 : v > opt.min
    · simp [Number.Store, hne, c1, c2]
      exact ⟨h1, h2, h3, h4, h5⟩
    · have hv : v = mn := by
        rw [← h1]
        exact le_antisymm (not_lt.mp c2) (not_lt.mp c1)
      simp [Number.Store, hne, c1, c2, locked]
      refine ⟨h1, h2, h3, ?_, ?_⟩
      · rw [hv]
      · rw [hv]; exact le_trans h4 h5

/-- `Duration.Store` keeps the bounds, and keeps the value inside them. -/
theorem Duration_Store_keeps (mn mx : time.Duration) (ptr : Ptr)
    (opt : Duration) (v : time.Duration) (b : Bus)
    (h : opt.min = mn ∧ opt.max = mx ∧ mn ≠ mx ∧ mn ≤ opt.v ∧ opt.v ≤ mx) :
    (Duration.Store ptr opt v b).opt.min = mn ∧ (Duration.Store ptr opt v b).opt.max = mx ∧
    mn ≠ mx ∧ mn ≤ (Duration.Store ptr opt v b).opt.v ∧
    (Duration.Store ptr opt v b).opt.v ≤ mx := by
  obtain ⟨h1, h2, h3, h4, h5⟩ := h
  have hne : opt.min ≠ opt.max := by rw [h1, h2]; exact h3
  by_cases c1 : v < opt.min
  · simp [Duration.Store, hne, c1]
    exact ⟨h1, h2, h3, h4, h5⟩
  · by_cases c2 : v > opt.max
    · simp [Duration.Store, hne, c1, c2]
      exact ⟨h1, h2, h3, h4, h5⟩
    · simp [Duration.Store, hne, c1, c2, locked]
      refine ⟨h1, h2, h3, ?_, ?_⟩
      · rw [← h1]; exact not_lt.mp c1
      · rw [← h2]; exact not_lt.mp c2

/-- `Time.Store` keeps the bounds, and keeps the value neither before the
minimum nor after the maximum. -/
theorem Time_Store_keeps (mn mx : time.Time) (ptr : Ptr)
    (opt : Time) (v : time.Time) (b : Bus)
    (h : opt.min = mn ∧ opt.max = mx ∧ mn.Equal mx = false ∧
      opt.v.Before mn = false ∧ opt.v.After mx = false) :
    (Time.Store ptr opt v b).opt.min = mn ∧ (Time.Store ptr opt v b).opt.max = mx ∧
    mn.Equal mx = false ∧ (Time.Store ptr opt v b).opt.v.Before mn = false ∧
    (Time.Store ptr opt v b).opt.v.After mx = false := by
  obtain ⟨h1, h2, h3, h4, h5⟩ := h
  have hne : opt.min.Equal opt.max = false := by rw [h1, h2]; exact h3
  by_cases c1 : v.Before opt.min = true
  · simp [Time.Store, hne, c1]
    exact ⟨h1, h2, h3, h4, h5⟩
  · by_cases c2 : v.After opt.max = true
    · simp [Time.Store, hne, c1, c2]
      exact ⟨h1, h2, h3, h4, h5⟩
    · simp [Time.Store, hne, c1, c2, locked]
      refine ⟨h1, h2, h3, ?_, ?_⟩
      · rw [← h1]; simpa using c1
      · rw [← h2]; simpa using c2

/-- Every call on a `Number[T]` leaves the receiver as it was or is a `Store`. -/
theorem Number_call_cases {T F : Type} [Numeric T] (Sscan : String → Except String T)
    (Unmarshal : String → Except String F) (conv : F → T) (ptr : Ptr)
    (opt : Number T) (c : Number.Call T) (b : Bus) :
    (Number.call Sscan Unmarshal conv ptr opt c b).opt = opt ∨
    ∃ v, (Number.call Sscan Unmarshal conv ptr opt c b).opt = (Number.Store ptr opt v b).opt := by
  cases c with
  | Store v => exact Or.inr ⟨v, rfl⟩
  | Set s =>
    simp only [Number.call, Number.Set]
    cases Sscan s with
    | error e => exact Or.inl rfl
    | ok v => exact Or.inr ⟨v, rfl⟩
  | UnmarshalText s =>
    simp only [Number.call, Number.UnmarshalText, Number.Set]
    cases Sscan s with
    | error e => exact Or.inl rfl
    | ok v => exact Or.inr ⟨v, rfl⟩
  | UnmarshalJSON s =>
    simp only [Number.call, Number.UnmarshalJSON]
    cases Unmarshal s with
    | error e => exact Or.inl rfl
    | ok v => exact Or.inr ⟨conv v, rfl⟩

/-- Every call on a `Duration` leaves the receiver as it was or is a `Store`. -/
theorem Duration_call_cases (Unmarshal : String → Except String String)
    (ParseDuration : String → Except String time.Duration) (ptr : Ptr)
    (opt : Duration) (c : Duration.Call) (b : Bus) :
    (Duration.call Unmarshal ParseDuration ptr opt c b).opt = opt ∨
    ∃ v, (Duration.call Unmarshal ParseDuration ptr opt c b).opt
      = (Duration.Store ptr opt v b).opt := by
  have hset : ∀ s, (Duration.Set ParseDuration ptr opt s b).opt = opt ∨
      ∃ v, (Duration.Set ParseDuration ptr opt s b).opt = (Duration.Store ptr opt v b).opt := by
    intro s
    simp only [Duration.Set]
    cases ParseDuration s with
    | error e => exact Or.inl rfl
    | ok v => exact Or.inr ⟨v, rfl⟩
  cases c with
  | Store v => exact Or.inr ⟨v, rfl⟩
  | Set s => exact hset s
  | UnmarshalText s => exact hset s
  | UnmarshalJSON s =>
    simp only [Duration.call, Duration.UnmarshalJSON]
    cases Unmarshal s with
    | error e => exact Or.inl rfl
    | ok t => exact hset t

/-- Every call on a `Time` leaves the receiver as it was or is a `Store`. -/
theorem Time_call_cases (Unmarshal : String → Except String String)
    (parse : String → Except String time.Time) (ptr : Ptr)
    (opt : Time) (c : Time.Call) (b : Bus) :
    (Time.call Unmarshal parse ptr opt c b).opt = opt ∨
    ∃ v, (Time.call Unmarshal parse ptr opt c b).opt = (Time.Store ptr opt v b).opt := by
  have hset : ∀ s, (Time.UnmarshalText parse ptr opt s b).opt = opt ∨
      ∃ v, (Time.UnmarshalText parse ptr opt s b).opt = (Time.Store ptr opt v b).opt := by
    intro s
    simp only [Time.UnmarshalText]
    cases parse s with
    | error e => exact Or.inl rfl
    | ok v => exact Or.inr ⟨v, rfl⟩
  cases c with
  | Store v => exact Or.inr ⟨v, rfl⟩
  | Set s => exact hset s
  | UnmarshalText s => exact hset s
  | UnmarshalJSON s =>
    simp only [Time.call, Time.UnmarshalJSON]
    cases Unmarshal s with
    | error e => exact Or.inl rfl
    | ok t => exact hset t

/-- C5, as the claim states it, fails in two ways.  At the freshly constructed
state: the constructors store the initial value unchecked, so
`LimitedDuration(10s, 1s, 5s)`, `LimitedNumber(300, 100, 200)` and a
`LimitedTime` starting after its maximum have active bounds and a value above
the maximum before any call.  At the floating-point kinds: on
`LimitedNumber[float64](15, 10, 20)`, whose initial value is inside the bounds,
`Store(NaN)` passes both comparisons, returns nil and leaves the value NaN,
for which `min <= Value()` is false. -/
theorem Limited_value_outside_bounds :
    ((1 * time.Second ≠ 5 * time.Second) ∧
      ¬ (runCalls (Duration.call (fun _ => .error "") (fun _ => .error "") 0) []
          (LimitedDuration (10 * time.Second) (1 * time.Second) (5 * time.Second))
          ⟨[], []⟩).1.Value ≤ 5 * time.Second) ∧
    (((100 : Int) ≠ 200) ∧
      ¬ (runCalls (Number.call (fun _ => .error "")
            (fun _ => (Except.error "" : Except String Int)) id 0) []
          (LimitedNumber (300 : Int) 100 200) ⟨[], []⟩).1.Value ≤ 200) ∧
    ((time.Time.Equal ⟨10, 0⟩ ⟨20, 0⟩ = false) ∧
      (runCalls (Time.call (fun _ => .error "") (fun _ => .error "") 0) []
          (LimitedTime ⟨30, 0⟩ ⟨10, 0⟩ ⟨20, 0⟩) ⟨[], []⟩).1.Value.After ⟨20, 0⟩ = true) ∧
    (float64.Val.ne (.num (10 : Int)) (.num 20) = true ∧
      float64.Val.le (.num (10 : Int)) (.num 15) = true ∧
      float64.Val.le (.num (15 : Int)) (.num 20) = true ∧
      (Number.StoreFloat (fun _ => "") 0
        (LimitedNumber (.num (15 : Int)) (.num 10) (.num 20)) .NaN ⟨[], []⟩).err = none ∧
      (Number.StoreFloat (fun _ => "") 0
        (LimitedNumber (.num (15 : Int)) (.num 10) (.num 20)) .NaN ⟨[], []⟩).opt.Value
        = .NaN ∧
      float64.Val.le (.num (10 : Int)) .NaN = false) := by
  decide

/-- C5, amended: when the initial value given to `LimitedNumber` of an
integer kind (a linearly ordered `T`), to `LimitedDuration` or to `LimitedTime`
lies inside the active bounds
(`min != max`), the stored value lies inside them in every state reached by
any sequence of `Store`, `Set`, `UnmarshalText` and `UnmarshalJSON` calls,
whatever the parsers return; for a `Time` inside means neither before `min`
nor after `max`. -/
theorem bounds_invariant_from_valid_start :
    (∀ (T F : Type) [Numeric T] (Sscan : String → Except String T)
        (Unmarshal : String → Except String F) (conv : F → T) (ptr : Ptr)
        (v0 min max : T) (calls : List (Number.Call T)) (b : Bus),
        min ≠ max → min ≤ v0 → v0 ≤ max →
        min ≤ (runCalls (Number.call Sscan Unmarshal conv ptr) calls
                (LimitedNumber v0 min max) b).1.Value ∧
        (runCalls (Number.call Sscan Unmarshal conv ptr) calls
                (LimitedNumber v0 min max) b).1.Value ≤ max) ∧
    (∀ (Unmarshal : String → Except String String)
        (ParseDuration : String → Except String time.Duration) (ptr : Ptr)
        (v0 min max : time.Duration) (calls : List Duration.Call) (b : Bus),
        min ≠ max → min ≤ v0 → v0 ≤ max →
        min ≤ (runCalls (Duration.call Unmarshal ParseDuration ptr) calls
                (LimitedDuration v0 min max) b).1.Value ∧
        (runCalls (Duration.call Unmarshal ParseDuration ptr) calls
                (LimitedDuration v0 min max) b).1.Value ≤ max) ∧
    (∀ (Unmarshal : String → Except String String)
        (parse : String → Except String time.Time) (ptr : Ptr)
        (v0 min max : time.Time) (calls : List Time.Call) (b : Bus),
        min.Equal max = false → v0.Before min = false → v0.After max = false →
        (runCalls (Time.call Unmarshal parse ptr) calls
                (LimitedTime v0 min max) b).1.Value.Before min = false ∧
        (runCalls (Time.call Unmarshal parse ptr) calls
                (LimitedTime v0 min max) b).1.Value.After max = false) := by
  refine ⟨?_, ?_, ?_⟩
  · intro T F _ Sscan Unmarshal conv ptr v0 mn mx calls b hne h1 h2
    have key := runCalls_keeps (Number.call Sscan Unmarshal conv ptr)
      (fun o => o.min = mn ∧ o.max = mx ∧ mn ≠ mx ∧ mn ≤ o.v ∧ o.v ≤ mx)
      (by
        intro opt c b0 h
        rcases Number_call_cases Sscan Unmarshal conv ptr opt c b0 with e | ⟨v, e⟩
        · rw [e]; exact h
        · rw [e]; exact Number_Store_keeps mn mx ptr opt v b0 h)
      calls (LimitedNumber v0 mn mx) b ⟨rfl, rfl, hne, h1, h2⟩
    exact ⟨key.2.2.2.1, key.2.2.2.2⟩
  · intro Unmarshal ParseDuration ptr v0 mn mx calls b hne h1 h2
    have key := runCalls_keeps (Duration.call Unmarshal ParseDuration ptr)
      (fun o => o.min = mn ∧ o.max = mx ∧ mn ≠ mx ∧ mn ≤ o.v ∧ o.v ≤ mx)
      (by
        intro opt c b0 h
        rcases Duration_call_cases Unmarshal ParseDuration ptr opt c b0 with e | ⟨v, e⟩
        · rw [e]; exact h
        · rw [e]; exact Duration_Store_keeps mn mx ptr opt v b0 h)
      calls (LimitedDuration v0 mn mx) b ⟨rfl, rfl, hne, h1, h2⟩
    exact ⟨key.2.2.2.1, key.2.2.2.2⟩
  · intro Unmarshal parse ptr v0 mn mx calls b hne h1 h2
    have key := runCalls_keeps (Time.call Unmarshal parse ptr)
      (fun o => o.min = mn ∧ o.max = mx ∧ mn.Equal mx = false ∧
        o.v.Before mn = false ∧ o.v.After mx = false)
      (by
        intro opt c b0 h
        rcases Time_call_cases Unmarshal parse ptr opt c b0 with e | ⟨v, e⟩
        · rw [e]; exact h
        · rw [e]; exact Time_Store_keeps mn mx ptr opt v b0 h)
      calls (LimitedTime v0 mn mx) b ⟨rfl, rfl, hne, h1, h2⟩
    exact ⟨key.2.2.2.1, key.2.2.2.2⟩

/-- C5 amended, at `LimitedDuration(3s, 1s, 5s)` after `Store(10s)` (rejected),
`Store(4s)` (accepted) and a `Set` whose text does not parse: the value stays
inside `[1s, 5s]`. -/
theorem bounds_invariant_from_valid_start_witness :
    1 * time.Second ≤
      (runCalls (Duration.call (fun _ => .error "json") (fun _ => .error "parse") 0)
        [.Store (10 * time.Second), .Store (4 * time.Second), .Set "x"]
        (LimitedDuration (3 * time.Second) (1 * time.Second) (5 * time.Second))
        ⟨[], []⟩).1.Value ∧
    (runCalls (Duration.call (fun _ => .error "json") (fun _ => .error "parse") 0)
        [.Store (10 * time.Second), .Store (4 * time.Second), .Set "x"]
        (LimitedDuration (3 * time.Second) (1 * time.Second) (5 * time.Second))
        ⟨[], []⟩).1.Value ≤ 5 * time.Second :=
  bounds_invariant_from_valid_start.2.1 (fun _ => .error "json") (fun _ => .error "parse") 0
    (3 * time.Second) (1 * time.Second) (5 * time.Second)
    [.Store (10 * time.Second), .Store (4 * time.Second), .Set "x"] ⟨[], []⟩
    (by decide) (by decide) (by decide)

/-! ### Alias strings -/

/-- The loop of `String.Store`: when `v` is among the aliases scanned the value
is stored and nil returned; otherwise the error is returned and neither the
receiver nor the package state changes. -/
theorem StoreLoop_spec (Quote : String → String) (ptr : Ptr) (opt : StringOpt)
    (v : String) (b : Bus) (l : List String) :
    (v ∈ l → StringOpt.StoreLoop Quote ptr opt v b l = StringOpt.store ptr opt v b) ∧
    (v ∉ l → StringOpt.StoreLoop Quote ptr opt v b l
      = { err := some (Quote v ++ " invalid"), opt := opt, bus := b }) := by
  induction l with
  | nil => simp [StringOpt.StoreLoop]
  | cons s rest ih =>
    by_cases h : s = v
    · simp [StringOpt.StoreLoop, h]
    · have h' : ¬ v = s := fun e => h e.symm
      simp only [StringOpt.StoreLoop, h, if_false, List.mem_cons, h', false_or]
      exact ih

/-- `String.Store` on an option with at least one alias. -/
theorem StringOpt_Store_spec (Quote : String → String) (ptr : Ptr) (opt : StringOpt)
    (v : String) (b : Bus) (hne : opt.aka ≠ []) :
    (v ∈ opt.aka → StringOpt.Store Quote ptr opt v b = StringOpt.store ptr opt v b) ∧
    (v ∉ opt.aka → StringOpt.Store Quote ptr opt v b
      = { err := some (Quote v ++ " invalid"), opt := opt, bus := b }) := by
  have hlen : ¬ opt.aka.length = 0 := by
    intro h
    exact hne (List.length_eq_zero.mp h)
  simp only [StringOpt.Store, hlen, if_false]
  exact StoreLoop_spec Quote ptr opt v b opt.aka

/-- Every call on a `String[T]` leaves the receiver as it was or is a `Store`. -/
theorem StringOpt_call_cases (Quote : String → String)
    (Unmarshal : String → Except String String) (ptr : Ptr)
    (opt : StringOpt) (c : StringOpt.Call) (b : Bus) :
    (StringOpt.call Quote Unmarshal ptr opt c b).opt = opt ∨
    ∃ v, (StringOpt.call Quote Unmarshal ptr opt c b).opt
      = (StringOpt.Store Quote ptr opt v b).opt := by
  cases c with
  | Store v => exact Or.inr ⟨v, rfl⟩
  | Set s => exact Or.inr ⟨s, rfl⟩
  | UnmarshalText s => exact Or.inr ⟨s, rfl⟩
  | UnmarshalJSON s =>
    simp only [StringOpt.call, StringOpt.UnmarshalJSON]
    cases Unmarshal s with
    | error e => exact Or.inl rfl
    | ok v => exact Or.inr ⟨v, rfl⟩

/-- C6: for a `String` built by `Alias(name, aka...)`, after any sequence of
`Store`, `Set`, `UnmarshalText` and `UnmarshalJSON` calls, failing or not (the
empty sequence included), `Value()` is `name` or one of `aka`. -/
theorem Alias_value_always_allowed (Quote : String → String)
    (Unmarshal : String → Except String String) (ptr : Ptr) (name : String)
    (aka : List String) (calls : List StringOpt.Call) (b : Bus) :
    (runCalls (StringOpt.call Quote Unmarshal ptr) calls (Alias name aka) b).1.Value
      ∈ name :: aka := by
  have key := runCalls_keeps (StringOpt.call Quote Unmarshal ptr)
    (fun o => o.aka = aka ++ [name] ∧ o.v ∈ name :: aka)
    (by
      intro opt c b0 h
      rcases StringOpt_call_cases Quote Unmarshal ptr opt c b0 with e | ⟨v, e⟩
      · rw [e]; exact h
      · rw [e]
        have hne : opt.aka ≠ [] := by rw [h.1]; simp
        by_cases hv : v ∈ opt.aka
        · rw [(StringOpt_Store_spec Quote ptr opt v b0 hne).1 hv]
          refine ⟨h.1, ?_⟩
          have : v ∈ aka ++ [name] := h.1 ▸ hv
          simp only [StringOpt.store, locked]
          simp only [List.mem_append, List.mem_singleton] at this
          simp only [List.mem_cons]
          tauto
        · rw [(StringOpt_Store_spec Quote ptr opt v b0 hne).2 hv]
          exact h)
    calls (Alias name aka) b ⟨rfl, by simp [Alias]⟩
  exact key.2

/-- C7: on a `String` built by `Alias(name, aka...)`, in any of its states,
`Set(s)` and `Store(s)` return nil exactly when `s` is `name` or one of `aka`;
otherwise they return the error whose text is `s` quoted followed by
` invalid`, and `Value()` is unchanged.  With Go's `strconv.Quote` as the
rendering of `%q`, `Alias("Thomas", "Tom", "Tommy").Set("Tommey")` returns
`"Tommey" invalid`. -/
theorem Alias_Set_accepts_exactly_names (Quote : String → String) (ptr : Ptr)
    (name : String) (aka : List String) (cur s : String) (b : Bus) :
    (((StringOpt.Set Quote ptr { Alias name aka with v := cur } s b).err = none
        ↔ (s = name ∨ s ∈ aka)) ∧
     ((StringOpt.Store Quote ptr { Alias name aka with v := cur } s b).err = none
        ↔ (s = name ∨ s ∈ aka))) ∧
    (¬ (s = name ∨ s ∈ aka) →
      (StringOpt.Set Quote ptr { Alias name aka with v := cur } s b).err
        = some (Quote s ++ " invalid") ∧
      (StringOpt.Set Quote ptr { Alias name aka with v := cur } s b).opt.Value = cur ∧
      (StringOpt.Store Quote ptr { Alias name aka with v := cur } s b).err
        = some (Quote s ++ " invalid") ∧
      (StringOpt.Store Quote ptr { Alias name aka with v := cur } s b).opt.Value = cur) ∧
    (∀ table : Char → Bool,
      (StringOpt.Set (strconv.Quote table) ptr (Alias "Thomas" ["Tom", "Tommy"])
        "Tommey" b).err = some "\"Tommey\" invalid") := by
  have hne : ({ Alias name aka with v := cur } : StringOpt).aka ≠ [] := by simp [Alias]
  have hmem : s ∈ ({ Alias name aka with v := cur } : StringOpt).aka ↔ (s = name ∨ s ∈ aka) := by
    simp only [Alias, List.mem_append, List.mem_singleton]
    tauto
  have spec := StringOpt_Store_spec Quote ptr { Alias name aka with v := cur } s b hne
  have hiff : (StringOpt.Store Quote ptr { Alias name aka with v := cur } s b).err = none
      ↔ (s = name ∨ s ∈ aka) := by
    constructor
    · intro h
      by_contra hn
      rw [spec.2 (fun hm => hn (hmem.mp hm))] at h
      simp at h
    · intro h
      rw [spec.1 (hmem.mpr h)]
      rfl
  refine ⟨⟨hiff, hiff⟩, ?_, ?_⟩
  · intro hn
    have e := spec.2 (fun hm => hn (hmem.mp hm))
    simp only [StringOpt.Set]
    rw [e]
    exact ⟨rfl, rfl, rfl, rfl⟩
  · intro table
    rfl

/-- C7 at the test `ExampleAlias`: "Tommey" is not among "Thomas", "Tom",
"Tommy", so `Set("Tommey")` returns `"Tommey" invalid` and the value is still
"Thomas". -/
theorem Alias_Set_accepts_exactly_names_witness :
    (StringOpt.Set (strconv.Quote (fun _ => true)) 0
        { Alias "Thomas" ["Tom", "Tommy"] with v := "Thomas" } "Tommey" ⟨[], []⟩).err
      = some "\"Tommey\" invalid" ∧
    (StringOpt.Set (strconv.Quote (fun _ => true)) 0
        { Alias "Thomas" ["Tom", "Tommy"] with v := "Thomas" } "Tommey" ⟨[], []⟩).opt.Value
      = "Thomas" :=
  ⟨((Alias_Set_accepts_exactly_names (strconv.Quote (fun _ => true)) 0 "Thomas"
      ["Tom", "Tommy"] "Thomas" "Tommey" ⟨[], []⟩).2.1 (by decide)).1,
   ((Alias_Set_accepts_exactly_names (strconv.Quote (fun _ => true)) 0 "Thomas"
      ["Tom", "Tommy"] "Thomas" "Tommey" ⟨[], []⟩).2.1 (by decide)).2.1⟩

/-! ### Timestamps -/

/-- C8: on a `Time` whose `min` is before its `max`, `Store(v)` returns
`too soon` when `v` is before `min` and `too late` when `v` is after `max`,
leaving `Value()` as it was in both cases, and otherwise returns nil and
`Value()` is then `v`. -/
theorem Time_Store_by_chronology (ptr : Ptr) (opt : Time) (v : time.Time) (b : Bus)
    (hb : opt.min.Before opt.max = true) :
    (v.Before opt.min = true →
      (Time.Store ptr opt v b).err = some "too soon" ∧
      (Time.Store ptr opt v b).opt.Value = opt.Value) ∧
    (v.After opt.max = true →
      (Time.Store ptr opt v b).err = some "too late" ∧
      (Time.Store ptr opt v b).opt.Value = opt.Value) ∧
    (v.Before opt.min = false → v.After opt.max = false →
      (Time.Store ptr opt v b).err = none ∧
      (Time.Store ptr opt v b).opt.Value = v) := by
  have hlt : opt.min.nanos < opt.max.nanos := by
    simpa [time.Time.Before] using hb
  have hne : opt.min.Equal opt.max = false := by
    simp [time.Time.Equal]
    omega
  refine ⟨?_, ?_, ?_⟩
  · intro h1
    simp [Time.Store, hne, h1]
  · intro h2
    have h2' : opt.max.nanos < v.nanos := by
      simpa [time.Time.After] using h2
    have h1 : v.Before opt.min = false := by
      simp [time.Time.Before]
      omega
    simp [Time.Store, hne, h1, h2]
  · intro h1 h2
    simp [Time.Store, hne, h1, h2, locked, Time.Value]

/-- C8 at the test `ExampleLimitedTime`, the instants counted in nanoseconds
from the zero Time: bounds 2006-01-02T12:00:00Z and 2006-01-02T17:00:00Z,
value 2006-01-02T15:04:05Z; storing 2006-01-02T17:00:01Z returns `too late`
and the value stays. -/
theorem Time_Store_by_chronology_witness :
    (Time.Store 0 (LimitedTime ⟨63271811045000000000, 0⟩ ⟨63271800000000000000, 0⟩
        ⟨63271818000000000000, 0⟩) ⟨63271818001000000000, 0⟩ ⟨[], []⟩).err
      = some "too late" ∧
    (Time.Store 0 (LimitedTime ⟨63271811045000000000, 0⟩ ⟨63271800000000000000, 0⟩
        ⟨63271818000000000000, 0⟩) ⟨63271818001000000000, 0⟩ ⟨[], []⟩).opt.Value
      = ⟨63271811045000000000, 0⟩ :=
  (Time_Store_by_chronology 0 (LimitedTime ⟨63271811045000000000, 0⟩
      ⟨63271800000000000000, 0⟩ ⟨63271818000000000000, 0⟩)
      ⟨63271818001000000000, 0⟩ ⟨[], []⟩ (by decide)).2.1 (by decide)

/-! ### Booleans -/

/-- A string other than the empty one has a positive length in bytes. -/
theorem utf8ByteSize_pos_of_ne_empty (s : String) (h : s ≠ "") : s.utf8ByteSize > 0 := by
  cases s with
  | mk l =>
    cases l with
    | nil => exact absurd rfl h
    | cons c cs =>
      have hc : 0 < c.utf8Size := Char.utf8Size_pos c
      simp only [String.utf8ByteSize, String.utf8ByteSize.go]
      omega

/-- C9: on every `Bool`, whatever its value and whatever `fmt.Sscan` does,
`Set("")` returns nil and `Value()` is then true. -/
theorem Bool_Set_empty_sets_true (Sscan : String → Option Bool) (ptr : Ptr)
    (opt : BoolOpt) (b : Bus) :
    (BoolOpt.Set Sscan ptr opt "" b).err = none ∧
    (BoolOpt.Set Sscan ptr opt "" b).opt.Value = true := by
  have h : ¬ ("".utf8ByteSize > 0) := by decide
  simp only [BoolOpt.Set, h, if_false]
  exact ⟨rfl, rfl⟩

/-- When `s` is not empty and the scanner reports an error for it, `Bool.Set`
returns nil and leaves the option and the package state as they were. -/
theorem Bool_Set_scan_error (Sscan : String → Option Bool) (ptr : Ptr)
    (opt : BoolOpt) (s : String) (b : Bus)
    (hs : s ≠ "") (hp : Sscan s = none) :
    (BoolOpt.Set Sscan ptr opt s b).err = none ∧
    (BoolOpt.Set Sscan ptr opt s b).opt.Value = opt.Value ∧
    (BoolOpt.Set Sscan ptr opt s b).bus = b := by
  have h : s.utf8ByteSize > 0 := utf8ByteSize_pos_of_ne_empty s hs
  simp [BoolOpt.Set, h, hp]

/-- `ss.accept` consumes one character exactly when the text starts with one
of the accepted set. -/
theorem accept_cases (ok : List Char) (w : List Char) :
    (spec.startsLike [ok] w = true ∧ ∃ c cs, w = c :: cs ∧ fmt.accept ok w = some cs) ∨
    (spec.startsLike [ok] w = false ∧ fmt.accept ok w = none) := by
  rcases w with _ | ⟨c, cs⟩
  · right; simp [spec.startsLike, fmt.accept]
  · by_cases h : c ∈ ok
    · left; exact ⟨by simp [spec.startsLike, h], c, cs, rfl, by simp [fmt.accept, h]⟩
    · right; simp [spec.startsLike, fmt.accept, h]

/-- One step of `startsLike` on a text that is not empty. -/
theorem startsLike_cons (p : List Char) (ps : List (List Char)) (c : Char) (cs : List Char) :
    spec.startsLike (p :: ps) (c :: cs) = (decide (c ∈ p) && spec.startsLike ps cs) := rfl

/-- The texts for which `scanBool` reports an error: the empty text, the texts
that start like `tr` without going on to `true`, and those that start like
`fa` without going on to `false`. -/
theorem scanBool_none_iff (w : List Char) :
    fmt.scanBool w = none ↔
      (w.isEmpty
        || (spec.startsLike [['t', 'T'], ['r', 'R']] w
            && !spec.startsLike [['t', 'T'], ['r', 'R'], ['u', 'U'], ['e', 'E']] w)
        || (spec.startsLike [['f', 'F'], ['a', 'A']] w
            && !spec.startsLike [['f', 'F'], ['a', 'A'], ['l', 'L'], ['s', 'S'], ['e', 'E']] w))
        = true := by
  rcases w with _ | ⟨c1, w⟩
  · simp [fmt.scanBool]
  · by_cases h0 : c1 = '0'
    · subst h0; simp [fmt.scanBool, spec.startsLike]
    · by_cases h1 : c1 = '1'
      · subst h1; simp [fmt.scanBool, spec.startsLike]
      · by_cases ht : c1 = 't' ∨ c1 = 'T'
        · have hf : ¬ (c1 = 'f' ∨ c1 = 'F') := by
            rcases ht with e | e <;> subst e <;> decide
          have mt : c1 ∈ ['t', 'T'] := by simpa using ht
          have mf : c1 ∉ ['f', 'F'] := by simpa using hf
          simp only [fmt.scanBool, h0, h1, ht, if_true, if_false, startsLike_cons, mt, mf,
            decide_True, decide_False, Bool.true_and, Bool.false_and, List.isEmpty_cons,
            Bool.false_or, Bool.or_false]
          rcases accept_cases ['r', 'R'] w with ⟨s1, c2, w2, rfl, a1⟩ | ⟨s1, a1⟩
          · rw [a1]
            have m2 : c2 ∈ ['r', 'R'] := by simpa [spec.startsLike] using s1
            simp only [startsLike_cons, m2, decide_True, Bool.true_and]
            rcases accept_cases ['u', 'U'] w2 with ⟨s2, c3, w3, rfl, a2⟩ | ⟨s2, a2⟩
            · rw [a2]
              have m3 : c3 ∈ ['u', 'U'] := by simpa [spec.startsLike] using s2
              simp only [startsLike_cons, m3, decide_True, Bool.true_and]
              rcases accept_cases ['e', 'E'] w3 with ⟨s3, c4, w4, rfl, a3⟩ | ⟨s3, a3⟩
              · rw [a3]
                have m4 : c4 ∈ ['e', 'E'] := by simpa [spec.startsLike] using s3
                simp [spec.startsLike, m4]
              · rw [a3]
                rcases w3 with _ | ⟨c4, w4⟩
                · simp [spec.startsLike]
                · have m4 : c4 ∉ ['e', 'E'] := by simpa [spec.startsLike] using s3
                  simp [spec.startsLike, m4]
            · rw [a2]
              rcases w2 with _ | ⟨c3, w3⟩
              · simp [spec.startsLike]
              · have m3 : c3 ∉ ['u', 'U'] := by simpa [spec.startsLike] using s2
                simp [spec.startsLike, m3]
          · rw [a1]
            rcases w with _ | ⟨c2, w2⟩
            · simp [spec.startsLike]
            · have m2 : c2 ∉ ['r', 'R'] := by simpa [spec.startsLike] using s1
              simp [spec.startsLike, m2]
        · have mt : c1 ∉ ['t', 'T'] := by simpa using ht
          by_cases hf : c1 = 'f' ∨ c1 = 'F'
          · have mf : c1 ∈ ['f', 'F'] := by simpa using hf
            simp only [fmt.scanBool, h0, h1, ht, hf, if_true, if_false, startsLike_cons, mt, mf,
              decide_True, decide_False, Bool.true_and, Bool.false_and, List.isEmpty_cons,
              Bool.false_or, Bool.or_false]
            rcases accept_cases ['a', 'A'] w with ⟨s1, c2, w2, rfl, a1⟩ | ⟨s1, a1⟩
            · rw [a1]
              have m2 : c2 ∈ ['a', 'A'] := by simpa [spec.startsLike] using s1
              simp only [startsLike_cons, m2, decide_True, Bool.true_and]
              rcases accept_cases ['l', 'L'] w2 with ⟨s2, c3, w3, rfl, a2⟩ | ⟨s2, a2⟩
              · rw [a2]
                have m3 : c3 ∈ ['l', 'L'] := by simpa [spec.startsLike] using s2
                simp only [startsLike_cons, m3, decide_True, Bool.true_and]
                rcases accept_cases ['s', 'S'] w3 with ⟨s3, c4, w4, rfl, a3⟩ | ⟨s3, a3⟩
                · rw [a3]
                  have m4 : c4 ∈ ['s', 'S'] := by simpa [spec.startsLike] using s3
                  simp only [startsLike_cons, m4, decide_True, Bool.true_and]
                  rcases accept_cases ['e', 'E'] w4 with ⟨s4, c5, w5, rfl, a4⟩ | ⟨s4, a4⟩
                  · rw [a4]
                    have m5 : c5 ∈ ['e', 'E'] := by simpa [spec.startsLike] using s4
                    simp [spec.startsLike, m5]
                  · rw [a4]
                    rcases w4 with _ | ⟨c5, w5⟩
                    · simp [spec.startsLike]
                    · have m5 : c5 ∉ ['e', 'E'] := by simpa [spec.startsLike] using s4
                      simp [spec.startsLike, m5]
                · rw [a3]
                  rcases w3 with _ | ⟨c4, w4⟩
                  · simp [spec.startsLike]
                  · have m4 : c4 ∉ ['s', 'S'] := by simpa [spec.startsLike] using s3
                    simp [spec.startsLike, m4]
              · rw [a2]
                rcases w2 with _ | ⟨c3, w3⟩
                · simp [spec.startsLike]
                · have m3 : c3 ∉ ['l', 'L'] := by simpa [spec.startsLike] using s2
                  simp [spec.startsLike, m3]
            · rw [a1]
              rcases w with _ | ⟨c2, w2⟩
              · simp [spec.startsLike]
              · have m2 : c2 ∉ ['a', 'A'] := by simpa [spec.startsLike] using s1
                simp [spec.startsLike, m2]
          · have mf : c1 ∉ ['f', 'F'] := by simpa using hf
            simp [fmt.scanBool, h0, h1, ht, hf, startsLike_cons, mt, mf]

/-- The scanner of `fmt.Sscan` reports an error exactly for the texts of
`spec.scanFails`. -/
theorem SscanBool_none_iff (s : String) : fmt.SscanBool s = none ↔ spec.scanFails s = true := by
  unfold fmt.SscanBool spec.scanFails
  exact scanBool_none_iff _

/-! ### The environment binder -/

/-- A string of length zero in bytes is the empty string. -/
theorem eq_empty_of_utf8ByteSize_eq_zero (s : String) (h : s.utf8ByteSize = 0) : s = "" := by
  by_contra hne
  have := utf8ByteSize_pos_of_ne_empty s hne
  omega

/-- The position `strings.Index` finds: past the longest piece without `c`,
or -1 when `c` does not occur. -/
theorem indexFrom_eq (c : Char) (l : List Char) (i : Nat) :
    strings.indexFrom c l i
      = if c ∈ l then ((i + (l.takeWhile (fun x => x != c)).length : Nat) : Int) else -1 := by
  induction l generalizing i with
  | nil => simp [strings.indexFrom]
  | cons x xs ih =>
    by_cases hx : x = c
    · subst hx
      simp [strings.indexFrom, List.takeWhile]
    · have hx' : ¬ c = x := fun e => hx e.symm
      have hb : (x != c) = true := by simpa using hx
      simp only [strings.indexFrom, hx, if_false, ih, List.mem_cons, hx', false_or,
        List.takeWhile, hb, List.length_cons]
      by_cases hm : c ∈ xs
      · simp only [hm, if_true]
        congr 1
        omega
      · simp only [hm, if_false]

/-- Cutting a list after its longest piece satisfying `p`. -/
theorem take_drop_takeWhile {α : Type} (p : α → Bool) (l : List α) :
    l.take (l.takeWhile p).length = l.takeWhile p ∧
    l.drop (l.takeWhile p).length = l.dropWhile p := by
  induction l with
  | nil => simp
  | cons x xs ih =>
    by_cases hx : p x = true
    · simp [List.takeWhile, List.dropWhile, hx, ih.1, ih.2]
    · simp [List.takeWhile, List.dropWhile, hx]

/-- On a token that does not start with `=`, the key and value the code cuts
are the key and argument of the specification. -/
theorem keyValue_eq_spec (tok : String) (h : tok.data.head? ≠ some '=') :
    Env.keyValue tok = (spec.keyOf tok, spec.argOf tok) := by
  obtain ⟨l⟩ := tok
  simp only [Env.keyValue, strings.Index, spec.keyOf, spec.argOf, indexFrom_eq]
  simp only at h
  by_cases hm : '=' ∈ l
  · have hpos : 0 < (l.takeWhile (fun x => x != '=')).length := by
      cases l with
      | nil => simp at hm
      | cons x xs =>
        have hx : ¬ x = '=' := by
          intro e
          apply h
          simp [e]
        have hb : (x != '=') = true := by simpa using hx
        simp [List.takeWhile, hb]
    have h1 := (take_drop_takeWhile (fun x => x != '=') l).1
    have h2 := (take_drop_takeWhile (fun x => x != '=') l).2
    simp only [hm, if_true, Nat.zero_add]
    have hgt : ((List.takeWhile (fun x => x != '=') l).length : Int) > 0 := by
      exact_mod_cast hpos
    simp only [hgt, if_true, Int.toNat_ofNat, h1]
    rw [← List.drop_drop, h2]
  · have hall : ∀ x ∈ l, (x != '=') = true := by
      intro x hx
      have : ¬ x = '=' := fun e => hm (e ▸ hx)
      simpa using this
    have ht : l.takeWhile (fun x => x != '=') = l := List.takeWhile_eq_self_iff.mpr hall
    have hd : l.dropWhile (fun x => x != '=') = [] := List.dropWhile_eq_nil_iff.mpr hall
    simp [hm, ht, hd]

/-- `Env.Set` skips a token of length zero. -/
theorem range_cons_empty {σ : Type} (env : Env σ) (k : String) (rest : List String)
    (s : σ) (log : List Env.Call) (h : k.utf8ByteSize = 0) :
    Env.range env (k :: rest) s log = Env.range env rest s log := by
  simp [Env.range, h]

/-- `Env.Set` skips a token whose key is not in the map. -/
theorem range_cons_miss {σ : Type} (env : Env σ) (k : String) (rest : List String)
    (s : σ) (log : List Env.Call) (h : k.utf8ByteSize ≠ 0)
    (hm : env (Env.keyValue k).1 = none) :
    Env.range env (k :: rest) s log = Env.range env rest s log := by
  simp [Env.range, h, hm]

/-- `Env.Set` goes on after a setter that returns nil. -/
theorem range_cons_ok {σ : Type} (env : Env σ) (k : String) (rest : List String)
    (s s1 : σ) (log : List Env.Call) (set : Setter σ) (h : k.utf8ByteSize ≠ 0)
    (hm : env (Env.keyValue k).1 = some set) (hs : set (Env.keyValue k).2 s = (none, s1)) :
    Env.range env (k :: rest) s log
      = Env.range env rest s1 (log ++ [⟨(Env.keyValue k).1, (Env.keyValue k).2, none⟩]) := by
  simp [Env.range, h, hm, hs]

/-- `Env.Set` returns at a setter that returns an error. -/
theorem range_cons_err {σ : Type} (env : Env σ) (k : String) (rest : List String)
    (s s1 : σ) (log : List Env.Call) (set : Setter σ) (e : String) (h : k.utf8ByteSize ≠ 0)
    (hm : env (Env.keyValue k).1 = some set) (hs : set (Env.keyValue k).2 s = (some e, s1)) :
    Env.range env (k :: rest) s log
      = { err := some e, state := s1
          calls := log ++ [⟨(Env.keyValue k).1, (Env.keyValue k).2, some e⟩] } := by
  simp [Env.range, h, hm, hs]


/-- The loop of `Env.Set` on tokens that do not start with `=`: when no
invocation it made returned an error, it returns nil, the invocations added to
`log` are those the specification expects and the state is the one they leave. -/
theorem range_matches_spec {σ : Type} (env : Env σ) (args : List String) :
    ∀ (s : σ) (log : List Env.Call),
      (∀ tok ∈ args, tok.data.head? ≠ some '=') →
      (∀ c ∈ (Env.range env args s log).calls, c.err = none) →
      (Env.range env args s log).err = none ∧
      (Env.range env args s log).calls.map (fun c => (c.key, c.arg))
        = log.map (fun c => (c.key, c.arg)) ++ spec.calls env args ∧
      (Env.range env args s log).state = spec.apply env (spec.calls env args) s := by
  induction args with
  | nil =>
    intro s log _ _
    simp [Env.range, spec.calls, spec.apply]
  | cons tok rest ih =>
    intro s log hhead hok
    have hrest : ∀ t ∈ rest, t.data.head? ≠ some '=' :=
      fun t ht => hhead t (List.mem_cons_of_mem _ ht)
    have hkv := keyValue_eq_spec tok (hhead tok (List.mem_cons_self _ _))
    by_cases hz : tok.utf8ByteSize = 0
    · have he : tok = "" := eq_empty_of_utf8ByteSize_eq_zero tok hz
      rw [range_cons_empty env tok rest s log hz] at hok ⊢
      have hc : spec.calls env (tok :: rest) = spec.calls env rest := by
        simp [spec.calls, he]
      rw [hc]
      exact ih s log hrest hok
    · have hne : tok ≠ "" := by
        intro e
        apply hz
        rw [e]
        rfl
      cases hm : env (Env.keyValue tok).1 with
      | none =>
        rw [range_cons_miss env tok rest s log hz hm] at hok ⊢
        have hm' : env (spec.keyOf tok) = none := by
          rw [hkv] at hm
          exact hm
        have hc : spec.calls env (tok :: rest) = spec.calls env rest := by
          simp [spec.calls, hne, hm']
        rw [hc]
        exact ih s log hrest hok
      | some set =>
        have hm' : env (spec.keyOf tok) = some set := by
          rw [hkv] at hm
          exact hm
        have hc : spec.calls env (tok :: rest)
            = (spec.keyOf tok, spec.argOf tok) :: spec.calls env rest := by
          simp [spec.calls, hne, hm']
        cases hs : set (Env.keyValue tok).2 s with
        | mk r s1 =>
          cases r with
          | some e =>
            rw [range_cons_err env tok rest s s1 log set e hz hm hs] at hok
            have := hok ⟨(Env.keyValue tok).1, (Env.keyValue tok).2, some e⟩ (by simp)
            simp at this
          | none =>
            rw [range_cons_ok env tok rest s s1 log set hz hm hs] at hok ⊢
            obtain ⟨h1, h2, h3⟩ := ih s1 _ hrest hok
            refine ⟨h1, ?_, ?_⟩
            · rw [h2, hc, hkv]
              simp
            · rw [h3, hc]
              have hs' : set (spec.argOf tok) s = (none, s1) := by
                rw [hkv] at hs
                exact hs
              simp [spec.apply, hm', hs']

/-- C11: on a non-empty argument list in which no token starts with `=`, when
no setter that `Env.Set` invoked returned an error, `Env.Set` returns nil and
its invocations are, in list order, one per non-empty token whose key (the text
before the first `=`, or the whole token) is in the map, with the text after
the first `=` (empty for a bare key) as argument; the state is the one these
invocations leave.  Tokens with a key outside the map add nothing. -/
theorem Env_Set_invokes_mapped_keys_in_order {σ : Type} (env : Env σ)
    (environ args : List String) (s : σ)
    (hne : args ≠ [])
    (hhead : ∀ tok ∈ args, tok.data.head? ≠ some '=')
    (hok : ∀ c ∈ (Env.Set env environ args s).calls, c.err = none) :
    (Env.Set env environ args s).err = none ∧
    (Env.Set env environ args s).calls.map (fun c => (c.key, c.arg))
      = spec.calls env args ∧
    (Env.Set env environ args s).state = spec.apply env (spec.calls env args) s := by
  have hlen : ¬ args.length = 0 := fun h => hne (List.length_eq_zero.mp h)
  have hset : Env.Set env environ args s = Env.range env args s [] := by
    simp [Env.Set, hlen]
  rw [hset] at hok ⊢
  have := range_matches_spec env args s [] hhead hok
  simpa using this

/-- C11 at the list of the specification: with `BOOL` and `INT` mapped,
`["BOOL", "INT=321", "FOO=1"]` invokes `BOOL("")` and then `INT("321")`, and
`FOO=1` is passed over without error. -/
theorem Env_Set_invokes_mapped_keys_in_order_witness :
    (Env.Set (fun k => if k = "BOOL" ∨ k = "INT" then some (fun _ n => (none, n + 1)) else none)
        [] ["BOOL", "INT=321", "FOO=1"] (0 : Nat)).err = none ∧
    (Env.Set (fun k => if k = "BOOL" ∨ k = "INT" then some (fun _ n => (none, n + 1)) else none)
        [] ["BOOL", "INT=321", "FOO=1"] (0 : Nat)).calls.map (fun c => (c.key, c.arg))
      = [("BOOL", ""), ("INT", "321")] := by
  have h := Env_Set_invokes_mapped_keys_in_order
    (fun k => if k = "BOOL" ∨ k = "INT" then some (fun _ n => (none, n + 1)) else none)
    [] ["BOOL", "INT=321", "FOO=1"] (0 : Nat) (by decide) (by decide) (by decide)
  exact ⟨h.1, h.2.1.trans (by decide)⟩

/-- The loop of `Env.Set` over a list in two pieces: the second piece is run
from where the first ended, unless the first ended with an error. -/
theorem range_append {σ : Type} (env : Env σ) (pre post : List String) :
    ∀ (s : σ) (log : List Env.Call),
      Env.range env (pre ++ post) s log
        = if (Env.range env pre s log).err = none
          then Env.range env post (Env.range env pre s log).state
                (Env.range env pre s log).calls
          else Env.range env pre s log := by
  induction pre with
  | nil => intro s log; simp [Env.range]
  | cons k rest ih =>
    intro s log
    rw [List.cons_append]
    by_cases hz : k.utf8ByteSize = 0
    · rw [range_cons_empty env k _ s log hz, range_cons_empty env k _ s log hz]
      exact ih s log
    · cases hm : env (Env.keyValue k).1 with
      | none =>
        rw [range_cons_miss env k _ s log hz hm, range_cons_miss env k _ s log hz hm]
        exact ih s log
      | some set =>
        cases hs : set (Env.keyValue k).2 s with
        | mk r s1 =>
          cases r with
          | some e =>
            rw [range_cons_err env k _ s s1 log set e hz hm hs,
              range_cons_err env k _ s s1 log set e hz hm hs]
            simp
          | none =>
            rw [range_cons_ok env k _ s s1 log set hz hm hs,
              range_cons_ok env k _ s s1 log set hz hm hs]
            exact ih s1 _

/-- C12: let the list that `Env.Set` runs over (the arguments, or the
environment when there are none) be `pre ++ tok :: post`, let the tokens of
`pre` be processed without error, and let the
setter that `tok` selects return the error `e`.  Then `Env.Set` returns exactly
`e`, its last invocation is that failing one (no setter is invoked for the
tokens after `tok`), and the state is the one the earlier setters and the
failing setter left: nothing is rolled back. -/
theorem Env_Set_stops_at_first_error {σ : Type} (env : Env σ)
    (environ args pre post : List String) (tok : String) (s s2 : σ) (set : Setter σ)
    (e : String)
    (hargs : (if args.length = 0 then environ else args) = pre ++ tok :: post)
    (hpre : (Env.range env pre s []).err = none)
    (htok : tok ≠ "")
    (hm : env (Env.keyValue tok).1 = some set)
    (hs : set (Env.keyValue tok).2 (Env.range env pre s []).state = (some e, s2)) :
    (Env.Set env environ args s).err = some e ∧
    (Env.Set env environ args s).state = s2 ∧
    (Env.Set env environ args s).calls
      = (Env.range env pre s []).calls
        ++ [⟨(Env.keyValue tok).1, (Env.keyValue tok).2, some e⟩] := by
  have hz : tok.utf8ByteSize ≠ 0 := by
    have := utf8ByteSize_pos_of_ne_empty tok htok
    omega
  have hset : Env.Set env environ args s = Env.range env (pre ++ tok :: post) s [] := by
    rw [← hargs]
    unfold Env.Set
    split_ifs <;> rfl
  rw [hset, range_append env pre (tok :: post) s [], if_pos hpre,
    range_cons_err env tok post _ s2 _ set e hz hm hs]
  exact ⟨rfl, rfl, rfl⟩

/-- C12 at `["A=1", "B=x", "A=2"]` with counting setters of which `B` fails:
the error of `B` is returned, `A` was invoked once before it and not after,
and the count that `A("1")` made stays. -/
theorem Env_Set_stops_at_first_error_witness :
    (Env.Set (fun k => if k = "A" then some (fun _ n => (none, n + 1))
        else if k = "B" then some (fun _ n => (some "bad", n)) else none)
        [] (["A=1"] ++ "B=x" :: ["A=2"]) (0 : Nat)).err = some "bad" ∧
    (Env.Set (fun k => if k = "A" then some (fun _ n => (none, n + 1))
        else if k = "B" then some (fun _ n => (some "bad", n)) else none)
        [] (["A=1"] ++ "B=x" :: ["A=2"]) (0 : Nat)).state = 1 ∧
    (Env.Set (fun k => if k = "A" then some (fun _ n => (none, n + 1))
        else if k = "B" then some (fun _ n => (some "bad", n)) else none)
        [] (["A=1"] ++ "B=x" :: ["A=2"]) (0 : Nat)).calls
      = [⟨"A", "1", none⟩, ⟨"B", "x", some "bad"⟩] :=
  Env_Set_stops_at_first_error
    (fun k => if k = "A" then some (fun _ n => (none, n + 1))
        else if k = "B" then some (fun _ n => (some "bad", n)) else none)
    [] (["A=1"] ++ "B=x" :: ["A=2"]) ["A=1"] ["A=2"] "B=x" (0 : Nat) 1
    (fun _ n => (some "bad", n)) "bad" (by decide) (by decide) (by decide) rfl rfl


/-- A token whose key part is empty is taken whole as the key, with the empty
string as value. -/
theorem keyValue_of_empty_key (tok : String) (h : spec.keyOf tok = "") :
    Env.keyValue tok = (tok, "") := by
  obtain ⟨l⟩ := tok
  have ht : l.takeWhile (fun x => x != '=') = [] := by
    have := congrArg String.data h
    simpa [spec.keyOf] using this
  simp only [Env.keyValue, strings.Index, indexFrom_eq, ht]
  by_cases hm : '=' ∈ l
  · simp [hm]
  · simp [hm]

/-- C13, as the claim states it, fails on a map that has the key `=x`: the
token `=x` has an empty key part, yet `Env.Set` looks the whole token up and
invokes the setter found, with the empty string. -/
theorem Env_Set_invokes_key_starting_with_eq :
    spec.keyOf "=x" = "" ∧
    (Env.Set (fun k => if k = "=x" then some (fun _ n => (none, n + 1)) else none)
        [] ["=x"] (0 : Nat)).calls = [⟨"=x", "", none⟩] ∧
    (Env.Set (fun k => if k = "=x" then some (fun _ n => (none, n + 1)) else none)
        [] ["=x"] (0 : Nat)).state = 1 := by
  decide

/-- C13, amended: a token whose key part before the first `=` is empty adds
nothing to what `Env.Set` does, wherever it stands in the list run over (the
arguments, or the environment when there are none), when it is the empty token
or when the whole token is not a key of the map: the result is that of the
loop over the list without the token. -/
theorem Env_Set_skips_empty_key {σ : Type} (env : Env σ)
    (environ args pre post : List String) (tok : String) (s : σ)
    (hargs : (if args.length = 0 then environ else args) = pre ++ tok :: post)
    (hkey : spec.keyOf tok = "") (hmiss : tok = "" ∨ env tok = none) :
    Env.Set env environ args s = Env.range env (pre ++ post) s [] := by
  have hset : Env.Set env environ args s = Env.range env (pre ++ tok :: post) s [] := by
    rw [← hargs]
    unfold Env.Set
    split_ifs <;> rfl
  have hskip : ∀ (s1 : σ) (log : List Env.Call),
      Env.range env (tok :: post) s1 log = Env.range env post s1 log := by
    intro s1 log
    by_cases hz : tok.utf8ByteSize = 0
    · exact range_cons_empty env tok post s1 log hz
    · have hne : tok ≠ "" := by
        intro e
        apply hz
        rw [e]
        rfl
      have hm : env (Env.keyValue tok).1 = none := by
        rw [keyValue_of_empty_key tok hkey]
        exact hmiss.resolve_left hne
      exact range_cons_miss env tok post s1 log hz hm
  rw [hset, range_append env pre (tok :: post) s [], range_append env pre post s [], hskip]

/-- C13 amended, at `["A=1", "=x", "A=2"]` with only `A` mapped: the token `=x`
is passed over, and the two `A` tokens are invoked. -/
theorem Env_Set_skips_empty_key_witness :
    (Env.Set (fun k => if k = "A" then some (fun _ n => (none, n + 1)) else none)
        [] (["A=1"] ++ "=x" :: ["A=2"]) (0 : Nat)).calls
      = [⟨"A", "1", none⟩, ⟨"A", "2", none⟩] := by
  rw [Env_Set_skips_empty_key
    (fun k => if k = "A" then some (fun _ n => (none, n + 1)) else none)
    [] (["A=1"] ++ "=x" :: ["A=2"]) ["A=1"] ["A=2"] "=x" (0 : Nat) (by decide) (by decide)
    (Or.inr rfl)]
  decide


/-! ### The notification bus -/

/-- The locked tail of a `Store` delivers one token per registry entry. -/
theorem locked_delivers {α : Type} (ptr : Ptr) (w : α) (b : Bus) :
    Delivers ptr b (locked ptr w b).bus := by
  refine ⟨rfl, ?_⟩
  simp only [locked, publish, Bus.emit, Bus.sends, List.filterMap_append, List.filterMap_map]
  simp only [List.filterMap_cons, List.filterMap_nil, List.append_nil]
  congr 1
  induction b.subs with
  | nil => rfl
  | cons c cs ih => simp [List.filterMap_cons, ih]

/-- `Number.Store` either runs the locked tail or returns an error and leaves
everything as it was. -/
theorem Number_Store_cases {T : Type} [Numeric T] (ptr : Ptr) (opt : Number T) (v : T)
    (b : Bus) :
    Number.Store ptr opt v b = locked ptr { opt with v := v } b ∨
    ((Number.Store ptr opt v b).err ≠ none ∧ (Number.Store ptr opt v b).opt = opt ∧
      (Number.Store ptr opt v b).bus = b) := by
  unfold Number.Store
  split_ifs <;> simp

/-- `Duration.Store` either runs the locked tail or returns an error and leaves
everything as it was. -/
theorem Duration_Store_cases (ptr : Ptr) (opt : Duration) (v : time.Duration) (b : Bus) :
    Duration.Store ptr opt v b = locked ptr { opt with v := v } b ∨
    ((Duration.Store ptr opt v b).err ≠ none ∧ (Duration.Store ptr opt v b).opt = opt ∧
      (Duration.Store ptr opt v b).bus = b) := by
  unfold Duration.Store
  split_ifs <;> simp

/-- `Time.Store` either runs the locked tail or returns an error and leaves
everything as it was. -/
theorem Time_Store_cases (ptr : Ptr) (opt : Time) (v : time.Time) (b : Bus) :
    Time.Store ptr opt v b = locked ptr { opt with v := v } b ∨
    ((Time.Store ptr opt v b).err ≠ none ∧ (Time.Store ptr opt v b).opt = opt ∧
      (Time.Store ptr opt v b).bus = b) := by
  unfold Time.Store
  split_ifs <;> simp

/-- `String.Store` either runs the locked tail or returns an error and leaves
everything as it was. -/
theorem StringOpt_Store_cases (Quote : String → String) (ptr : Ptr) (opt : StringOpt)
    (v : String) (b : Bus) :
    StringOpt.Store Quote ptr opt v b = locked ptr { opt with v := v } b ∨
    ((StringOpt.Store Quote ptr opt v b).err ≠ none ∧
      (StringOpt.Store Quote ptr opt v b).opt = opt ∧
      (StringOpt.Store Quote ptr opt v b).bus = b) := by
  by_cases h0 : opt.aka.length = 0
  · left
    simp [StringOpt.Store, h0, StringOpt.store]
  · have hne : opt.aka ≠ [] := by
      intro e
      apply h0
      rw [e]
      rfl
    by_cases hv : v ∈ opt.aka
    · left
      rw [(StringOpt_Store_spec Quote ptr opt v b hne).1 hv]
      rfl
    · right
      rw [(StringOpt_Store_spec Quote ptr opt v b hne).2 hv]
      simp

/-- C14, as the claim states it, fails on a registry that holds a channel
twice (`Subscribe` appends without looking): one successful `Store` then sends
two tokens to that channel, not exactly one. -/
theorem Store_sends_twice_to_channel_subscribed_twice :
    (Subscribe 5 (Subscribe 5 ⟨[], []⟩)).subs = [5, 5] ∧
    (Number.Store 9 (NewNumber (0 : Int) 0) 3 (Subscribe 5 (Subscribe 5 ⟨[], []⟩))).err = none ∧
    (Number.Store 9 (NewNumber (0 : Int) 0) 3 (Subscribe 5 (Subscribe 5 ⟨[], []⟩))).bus.sends
      = [(5, 9), (5, 9)] := by
  decide

/-- C14, amended: a successful `Store` on a `Bool`, `Number`, `Duration`,
`Time`, `String`, `Numbers`, `Strings` or `NetIPs` option leaves the registry
as it is and sends, in registration order, exactly one token equal to the
address of the option for each entry of the registry, and nothing else: a
channel registered once receives one token, a channel registered k times
receives k, a channel that is not registered receives none. -/
theorem successful_Store_delivers_per_entry :
    (∀ (ptr : Ptr) (opt : BoolOpt) (v : Bool) (b : Bus),
      (BoolOpt.Store ptr opt v b).err = none →
      Delivers ptr b (BoolOpt.Store ptr opt v b).bus) ∧
    (∀ (T : Type) [Numeric T] (ptr : Ptr) (opt : Number T) (v : T) (b : Bus),
      (Number.Store ptr opt v b).err = none →
      Delivers ptr b (Number.Store ptr opt v b).bus) ∧
    (∀ (ptr : Ptr) (opt : Duration) (v : time.Duration) (b : Bus),
      (Duration.Store ptr opt v b).err = none →
      Delivers ptr b (Duration.Store ptr opt v b).bus) ∧
    (∀ (ptr : Ptr) (opt : Time) (v : time.Time) (b : Bus),
      (Time.Store ptr opt v b).err = none →
      Delivers ptr b (Time.Store ptr opt v b).bus) ∧
    (∀ (Quote : String → String) (ptr : Ptr) (opt : StringOpt) (v : String) (b : Bus),
      (StringOpt.Store Quote ptr opt v b).err = none →
      Delivers ptr b (StringOpt.Store Quote ptr opt v b).bus) ∧
    (∀ (T : Type) (ptr : Ptr) (opt : Numbers T) (v : List T) (b : Bus),
      (Numbers.Store ptr opt v b).err = none →
      Delivers ptr b (Numbers.Store ptr opt v b).bus) ∧
    (∀ (ptr : Ptr) (opt : Strings) (v : List String) (b : Bus),
      (Strings.Store ptr opt v b).err = none →
      Delivers ptr b (Strings.Store ptr opt v b).bus) ∧
    (∀ (T : Type) (ptr : Ptr) (opt : NetIPs T) (v : List T) (b : Bus),
      (NetIPs.Store ptr opt v b).err = none →
      Delivers ptr b (NetIPs.Store ptr opt v b).bus) ∧
    (∀ (ptr : Ptr) (b b1 : Bus) (ch : Chan), Delivers ptr b b1 →
      (b1.sends.drop b.sends.length).count (ch, ptr) = b.subs.count ch ∧
      ∀ p, p ≠ ptr → (b1.sends.drop b.sends.length).count (ch, p) = 0) := by
  refine ⟨?_, ?_, ?_, ?_, ?_, ?_, ?_, ?_, ?_⟩
  · intro ptr opt v b _
    exact locked_delivers ptr _ b
  · intro T _ ptr opt v b h
    rcases Number_Store_cases ptr opt v b with e | ⟨hn, _, _⟩
    · rw [e]; exact locked_delivers ptr _ b
    · exact absurd h hn
  · intro ptr opt v b h
    rcases Duration_Store_cases ptr opt v b with e | ⟨hn, _, _⟩
    · rw [e]; exact locked_delivers ptr _ b
    · exact absurd h hn
  · intro ptr opt v b h
    rcases Time_Store_cases ptr opt v b with e | ⟨hn, _, _⟩
    · rw [e]; exact locked_delivers ptr _ b
    · exact absurd h hn
  · intro Quote ptr opt v b h
    rcases StringOpt_Store_cases Quote ptr opt v b with e | ⟨hn, _, _⟩
    · rw [e]; exact locked_delivers ptr _ b
    · exact absurd h hn
  · intro T ptr opt v b _
    exact locked_delivers ptr _ b
  · intro ptr opt v b _
    exact locked_delivers ptr _ b
  · intro T ptr opt v b _
    exact locked_delivers ptr _ b
  · intro ptr b b1 ch h
    rw [h.2, List.drop_left]
    constructor
    · induction b.subs with
      | nil => rfl
      | cons c cs ih =>
        by_cases hc : c = ch
        · subst hc; simp [ih]
        · have hc' : ¬ (c, ptr) = (ch, ptr) := by
            intro e
            exact hc (congrArg Prod.fst e)
          simp [List.count_cons, hc, hc', ih]
    · intro p hp
      rw [List.count_eq_zero]
      intro hmem
      obtain ⟨c, _, hc⟩ := List.mem_map.mp hmem
      exact hp (congrArg Prod.snd hc).symm

/-- C14 amended, at the test `ExampleSubscribe`: one `Store` on a `Number` at
address 9 with the one subscriber 7 delivers one token 9 to channel 7, and the
three stores of 3, 2 and 1 deliver three tokens, all equal to 9. -/
theorem successful_Store_delivers_per_entry_witness :
    Delivers 9 ⟨[7], []⟩ (Number.Store 9 (NewNumber (0 : Int) 0) 3 ⟨[7], []⟩).bus ∧
    (runCalls (Number.call (fun _ => .error "") (fun _ => (Except.error "" : Except String Int))
        id 9) [.Store 3, .Store 2, .Store 1] (NewNumber (0 : Int) 0) ⟨[7], []⟩).2.sends
      = [(7, 9), (7, 9), (7, 9)] :=
  ⟨successful_Store_delivers_per_entry.2.1 Int 9 (NewNumber (0 : Int) 0) 3 ⟨[7], []⟩
    (by decide), by decide⟩

/-- C15: when `Store` on a `Number`, `Duration`, `Time` or `String` rejects
the value, the package state is as before (nothing is sent, the registry is
unchanged) and so is the option with its value. -/
theorem rejected_Store_changes_nothing :
    (∀ (T : Type) [Numeric T] (ptr : Ptr) (opt : Number T) (v : T) (b : Bus),
      (Number.Store ptr opt v b).err ≠ none →
      (Number.Store ptr opt v b).bus = b ∧ (Number.Store ptr opt v b).opt = opt ∧
      (Number.Store ptr opt v b).opt.Value = opt.Value) ∧
    (∀ (ptr : Ptr) (opt : Duration) (v : time.Duration) (b : Bus),
      (Duration.Store ptr opt v b).err ≠ none →
      (Duration.Store ptr opt v b).bus = b ∧ (Duration.Store ptr opt v b).opt = opt ∧
      (Duration.Store ptr opt v b).opt.Value = opt.Value) ∧
    (∀ (ptr : Ptr) (opt : Time) (v : time.Time) (b : Bus),
      (Time.Store ptr opt v b).err ≠ none →
      (Time.Store ptr opt v b).bus = b ∧ (Time.Store ptr opt v b).opt = opt ∧
      (Time.Store ptr opt v b).opt.Value = opt.Value) ∧
    (∀ (Quote : String → String) (ptr : Ptr) (opt : StringOpt) (v : String) (b : Bus),
      (StringOpt.Store Quote ptr opt v b).err ≠ none →
      (StringOpt.Store Quote ptr opt v b).bus = b ∧
      (StringOpt.Store Quote ptr opt v b).opt = opt ∧
      (StringOpt.Store Quote ptr opt v b).opt.Value = opt.Value) := by
  refine ⟨?_, ?_, ?_, ?_⟩
  · intro T _ ptr opt v b h
    rcases Number_Store_cases ptr opt v b with e | ⟨_, ho, hb⟩
    · rw [e] at h; exact absurd rfl h
    · exact ⟨hb, ho, by rw [ho]⟩
  · intro ptr opt v b h
    rcases Duration_Store_cases ptr opt v b with e | ⟨_, ho, hb⟩
    · rw [e] at h; exact absurd rfl h
    · exact ⟨hb, ho, by rw [ho]⟩
  · intro ptr opt v b h
    rcases Time_Store_cases ptr opt v b with e | ⟨_, ho, hb⟩
    · rw [e] at h; exact absurd rfl h
    · exact ⟨hb, ho, by rw [ho]⟩
  · intro Quote ptr opt v b h
    rcases StringOpt_Store_cases Quote ptr opt v b with e | ⟨_, ho, hb⟩
    · rw [e] at h; exact absurd rfl h
    · exact ⟨hb, ho, by rw [ho]⟩

/-- C15 at `LimitedDuration(3s, 1s, 5s).Store(10s)` with subscribers 4 and 5:
the store is rejected, no token is sent and the registry is as before. -/
theorem rejected_Store_changes_nothing_witness :
    (Duration.Store 0 (LimitedDuration (3 * time.Second) (1 * time.Second)
        (5 * time.Second)) (10 * time.Second) ⟨[4, 5], []⟩).bus = ⟨[4, 5], []⟩ ∧
    (Duration.Store 0 (LimitedDuration (3 * time.Second) (1 * time.Second)
        (5 * time.Second)) (10 * time.Second) ⟨[4, 5], []⟩).opt.Value = 3 * time.Second :=
  ⟨(rejected_Store_changes_nothing.2.1 0 (LimitedDuration (3 * time.Second)
      (1 * time.Second) (5 * time.Second)) (10 * time.Second) ⟨[4, 5], []⟩ (by decide)).1,
   (rejected_Store_changes_nothing.2.1 0 (LimitedDuration (3 * time.Second)
      (1 * time.Second) (5 * time.Second)) (10 * time.Second) ⟨[4, 5], []⟩ (by decide)).2.2⟩


/-- The loop of `Unsubscribe`, started past a piece `pre` without `ch`: no
slice expression is out of range, and the first `ch` of the rest is erased. -/
theorem Unsubscribe_range_erases (ch : Chan) (rest : List Chan) :
    ∀ pre : List Chan, ch ∉ pre →
      Unsubscribe.range ch (pre ++ rest) pre.length rest = some (pre ++ rest.erase ch) := by
  induction rest with
  | nil => intro pre _; simp [Unsubscribe.range]
  | cons sub rest ih =>
    intro pre hpre
    by_cases hc : ch = sub
    · subst hc
      have h1 : sliceFrom (pre ++ ch :: rest) (pre.length : Int) = some (ch :: rest) := by
        simp [sliceFrom]
        omega
      have h2 : sliceFrom (pre ++ ch :: rest) ((pre.length : Int) + 1) = some rest := by
        have hle : (pre.length : Int) + 1 ≤ ((pre ++ ch :: rest).length : Int) := by
          simp only [List.length_append, List.length_cons]
          push_cast
          omega
        have hnn : (0 : Int) ≤ (pre.length : Int) + 1 := by omega
        have htn : ((pre.length : Int) + 1).toNat = pre.length + 1 := by omega
        simp only [sliceFrom, hle, hnn, and_self, if_true, htn]
        simp
      have hcopy : copy (ch :: rest) rest = rest ++ (ch :: rest).drop rest.length := by
        simp [copy]
      have hlen1 : ((ch :: rest).drop rest.length).length = 1 := by
        simp
      simp only [Unsubscribe.range, if_true, h1, h2, List.take_left, hcopy]
      have hlen : ((pre ++ (rest ++ (ch :: rest).drop rest.length)).length : Int) - 1
          = ((pre ++ rest).length : Int) := by
        simp only [List.length_append, hlen1]
        push_cast
        omega
      rw [hlen]
      have htake : (pre ++ (rest ++ (ch :: rest).drop rest.length)).take (pre ++ rest).length
          = pre ++ rest := by
        rw [← List.append_assoc, List.take_left]
      simp only [sliceTo, List.length_append, hlen1]
      have hb : (0 : Int) ≤ ((pre.length + rest.length : Nat) : Int) ∧
          ((pre.length + rest.length : Nat) : Int)
            ≤ ((pre.length + (rest.length + 1) : Nat) : Int) := by
        constructor <;> omega
      simp only [List.length_append] at htake
      have htn : ((pre.length : Int) + (rest.length : Int)).toNat
          = pre.length + rest.length := by omega
      simp only [hb, and_self, if_true]
      push_cast
      rw [htn, htake]
      simp
    · have hc' : ¬ sub = ch := fun e => hc e.symm
      have hpre' : ch ∉ pre ++ [sub] := by
        simp [hpre, hc]
      have := ih (pre ++ [sub]) hpre'
      simp only [List.append_assoc, List.singleton_append, List.length_append,
        List.length_singleton] at this
      simp only [Unsubscribe.range, hc, if_false, this]
      simp [List.erase_cons, hc']

/-- `Unsubscribe` returns a state (no slice expression is out of range) whose
registry is the old one with the first `ch` erased. -/
theorem Unsubscribe_eq_erase (ch : Chan) (b : Bus) :
    Unsubscribe ch b
      = some ⟨b.subs.erase ch, b.trace ++ [Event.Lock, Event.Unlock]⟩ := by
  have h := Unsubscribe_range_erases ch b.subs [] (by simp)
  simp only [List.nil_append, List.length_nil] at h
  simp [Unsubscribe, h, Bus.emit]

/-- C17: `Unsubscribe(ch)` never indexes out of range and leaves the registry
with the first occurrence of `ch` erased: unchanged when `ch` is not
registered; otherwise the registry was `pre ++ ch :: post` with no `ch` in
`pre`, and becomes `pre ++ post`. -/
theorem Unsubscribe_erases_first (ch : Chan) (b : Bus) :
    Unsubscribe ch b
      = some ⟨b.subs.erase ch, b.trace ++ [Event.Lock, Event.Unlock]⟩ ∧
    (ch ∉ b.subs → b.subs.erase ch = b.subs) ∧
    (ch ∈ b.subs → ∃ pre post, b.subs = pre ++ ch :: post ∧ ch ∉ pre ∧
      b.subs.erase ch = pre ++ post) := by
  refine ⟨Unsubscribe_eq_erase ch b, ?_, ?_⟩
  · intro h
    exact List.erase_of_not_mem h
  · intro h
    obtain ⟨pre, post, hn, he, hr⟩ := List.exists_erase_eq h
    exact ⟨pre, post, he, hn, hr⟩

/-- C16, as the claim states it, fails on a registry that already holds `ch`:
`Subscribe(5)` then `Unsubscribe(5)` on the registry `[5]` leaves `[5]`, and
the next `Store` still sends a token to channel 5. -/
theorem Unsubscribe_leaves_earlier_subscription :
    Unsubscribe 5 (Subscribe 5 ⟨[5], []⟩)
      = some ⟨[5], [Event.Lock, Event.Unlock, Event.Lock, Event.Unlock]⟩ ∧
    (BoolOpt.Store 9 (NewBool false) true
      ⟨[5], [Event.Lock, Event.Unlock, Event.Lock, Event.Unlock]⟩).bus.sends = [(5, 9)] := by
  decide

/-- C16, amended: when `ch` is not already in the registry, `Subscribe(ch)`
followed by `Unsubscribe(ch)` leaves the registry as it was before the two
calls, without `ch`, and the tokens a later `Store` sends (the tail of every
`Store`, for any option and address) include none for `ch`. -/
theorem Subscribe_then_Unsubscribe_removes (ch : Chan) (b : Bus) (h : ch ∉ b.subs) :
    Unsubscribe ch (Subscribe ch b)
      = some ⟨b.subs, b.trace ++ [Event.Lock, Event.Unlock, Event.Lock, Event.Unlock]⟩ ∧
    (∀ (α : Type) (ptr : Ptr) (w : α) (p : Ptr),
      (ch, p) ∉ ((locked ptr w
          ⟨b.subs, b.trace ++ [Event.Lock, Event.Unlock, Event.Lock, Event.Unlock]⟩).bus.sends.drop
        (Bus.sends
          ⟨b.subs, b.trace ++ [Event.Lock, Event.Unlock, Event.Lock, Event.Unlock]⟩).length)) := by
  constructor
  · rw [Unsubscribe_eq_erase ch (Subscribe ch b)]
    have he : (b.subs ++ [ch]).erase ch = b.subs := by
      rw [List.erase_append_right _ h]
      simp
    simp [Subscribe, Bus.emit, he]
  · intro α ptr w p hmem
    rw [(locked_delivers ptr w _).2, List.drop_left] at hmem
    obtain ⟨c, hc, hcp⟩ := List.mem_map.mp hmem
    have : c = ch := congrArg Prod.fst hcp
    exact h (this ▸ hc)

/-- C16 amended, at the test `ExampleSubscribe`: on the empty registry,
`Subscribe(7)` then `Unsubscribe(7)` leaves the registry empty. -/
theorem Subscribe_then_Unsubscribe_removes_witness :
    Unsubscribe 7 (Subscribe 7 ⟨[], []⟩)
      = some ⟨[], [Event.Lock, Event.Unlock, Event.Lock, Event.Unlock]⟩ :=
  (Subscribe_then_Unsubscribe_removes 7 ⟨[], []⟩ (by decide)).1


/-! ### Sequence options -/

/-- C18: `Strings.String` should quote every element that holds a space or a
tab; the code tests `strings.Contains(s, " \t")`, which asks for a space
followed by a tab, so the list `["hello world", "x"]` is rendered with
`hello world` raw, while an element holding a space followed by a tab is
quoted. -/
theorem Strings_String_leaves_spaced_element_raw :
    Strings.String (strconv.Quote (fun _ => true)) (NewStrings ["hello world", "x"])
      = "[hello world x]" ∧
    strings.Contains "hello world" " \t" = false ∧
    Strings.String (strconv.Quote (fun _ => true)) (NewStrings ["a \tb", "x"])
      = "[\"a \\tb\" x]" := by
  decide

/-- The loop of `Numbers.UnmarshalTOML`: when every element converts, the
conversions are appended in order; when some element does not, the loop ends
with an error. -/
theorem Numbers_range_spec {T F : Type} (ofInt64 : Int → T) (ofFloat64 : F → T)
    (l : List (Any F)) :
    ∀ (i : Nat) (v : List T),
      ((∀ x ∈ l, (spec.convertNumber ofInt64 ofFloat64 x).isSome) →
        ∃ w, Numbers.UnmarshalTOML.range ofInt64 ofFloat64 i l v = .ok (v ++ w) ∧
          w.map some = l.map (spec.convertNumber ofInt64 ofFloat64)) ∧
      ((∃ x ∈ l, spec.convertNumber ofInt64 ofFloat64 x = none) →
        ∃ e, Numbers.UnmarshalTOML.range ofInt64 ofFloat64 i l v = .error e) := by
  induction l with
  | nil =>
    intro i v
    exact ⟨fun _ => ⟨[], by simp [Numbers.UnmarshalTOML.range]⟩, fun ⟨x, hx, _⟩ => by simp at hx⟩
  | cons x xs ih =>
    intro i v
    constructor
    · intro hall
      have hx := hall x (List.mem_cons_self _ _)
      have hxs : ∀ y ∈ xs, (spec.convertNumber ofInt64 ofFloat64 y).isSome :=
        fun y hy => hall y (List.mem_cons_of_mem _ hy)
      cases x with
      | int64 t =>
        obtain ⟨w, hw, hm⟩ := (ih (i + 1) (v ++ [ofInt64 t])).1 hxs
        refine ⟨ofInt64 t :: w, ?_, ?_⟩
        · simp [Numbers.UnmarshalTOML.range, hw]
        · simp [spec.convertNumber, hm]
      | float64 t =>
        obtain ⟨w, hw, hm⟩ := (ih (i + 1) (v ++ [ofFloat64 t])).1 hxs
        refine ⟨ofFloat64 t :: w, ?_, ?_⟩
        · simp [Numbers.UnmarshalTOML.range, hw]
        · simp [spec.convertNumber, hm]
      | nil => simp [spec.convertNumber] at hx
      | bool _ => simp [spec.convertNumber] at hx
      | string _ => simp [spec.convertNumber] at hx
      | slice _ => simp [spec.convertNumber] at hx
      | other _ => simp [spec.convertNumber] at hx
    · intro hex
      have hxs : (spec.convertNumber ofInt64 ofFloat64 x).isSome →
          ∃ y ∈ xs, spec.convertNumber ofInt64 ofFloat64 y = none := by
        intro hsome
        obtain ⟨y, hy, hn⟩ := hex
        rcases List.mem_cons.mp hy with e | hy'
        · rw [← e, hn] at hsome
          simp at hsome
        · exact ⟨y, hy', hn⟩
      cases x with
      | int64 t =>
        obtain ⟨e, he⟩ := (ih (i + 1) (v ++ [ofInt64 t])).2 (hxs (by simp [spec.convertNumber]))
        exact ⟨e, by simp [Numbers.UnmarshalTOML.range, he]⟩
      | float64 t =>
        obtain ⟨e, he⟩ := (ih (i + 1) (v ++ [ofFloat64 t])).2 (hxs (by simp [spec.convertNumber]))
        exact ⟨e, by simp [Numbers.UnmarshalTOML.range, he]⟩
      | nil => exact ⟨_, rfl⟩
      | bool _ => exact ⟨_, rfl⟩
      | string _ => exact ⟨_, rfl⟩
      | slice _ => exact ⟨_, rfl⟩
      | other _ => exact ⟨_, rfl⟩

/-- Writing at the index just past a piece `done` replaces the element there. -/
theorem set_past_done {α : Type} (done : List α) (p t : α) (ps : List α) :
    (done ++ p :: ps).set done.length t = (done ++ [t]) ++ ps := by
  induction done with
  | nil => simp
  | cons d ds ih => simp [ih]

/-- The loop of `Strings.UnmarshalTOML` over a slice made for the elements
still to visit: when every element is a string, they are written in order;
otherwise the loop ends with an error. -/
theorem Strings_range_spec {F : Type} (l : List (Any F)) :
    ∀ (done pad : List String), pad.length = l.length →
      ((∀ x ∈ l, (spec.convertString x).isSome) →
        ∃ w, Strings.UnmarshalTOML.range done.length l (done ++ pad) = .ok (done ++ w) ∧
          w.map some = l.map spec.convertString) ∧
      ((∃ x ∈ l, spec.convertString x = none) →
        ∃ e, Strings.UnmarshalTOML.range done.length l (done ++ pad) = .error e) := by
  induction l with
  | nil =>
    intro done pad hp
    have : pad = [] := List.length_eq_zero.mp hp
    subst this
    exact ⟨fun _ => ⟨[], by simp [Strings.UnmarshalTOML.range]⟩, fun ⟨x, hx, _⟩ => by simp at hx⟩
  | cons x xs ih =>
    intro done pad hp
    cases pad with
    | nil => simp at hp
    | cons p ps =>
      have hps : ps.length = xs.length := by simpa using hp
      constructor
      · intro hall
        have hx := hall x (List.mem_cons_self _ _)
        have hxs : ∀ y ∈ xs, (spec.convertString y).isSome :=
          fun y hy => hall y (List.mem_cons_of_mem _ hy)
        cases x with
        | string s =>
          have hstep := (ih (done ++ [s]) ps hps).1 hxs
          simp only [List.length_append, List.length_singleton] at hstep
          obtain ⟨w, hw, hm⟩ := hstep
          refine ⟨s :: w, ?_, ?_⟩
          · simp only [Strings.UnmarshalTOML.range, set_past_done, hw]
            simp
          · simp [spec.convertString, hm]
        | nil => simp [spec.convertString] at hx
        | bool _ => simp [spec.convertString] at hx
        | int64 _ => simp [spec.convertString] at hx
        | float64 _ => simp [spec.convertString] at hx
        | slice _ => simp [spec.convertString] at hx
        | other _ => simp [spec.convertString] at hx
      · intro hex
        have hxs : (spec.convertString x).isSome →
            ∃ y ∈ xs, spec.convertString y = none := by
          intro hsome
          obtain ⟨y, hy, hn⟩ := hex
          rcases List.mem_cons.mp hy with e | hy'
          · rw [← e, hn] at hsome
            simp at hsome
          · exact ⟨y, hy', hn⟩
        cases x with
        | string s =>
          have hstep := (ih (done ++ [s]) ps hps).2 (hxs (by simp [spec.convertString]))
          simp only [List.length_append, List.length_singleton] at hstep
          obtain ⟨e, he⟩ := hstep
          exact ⟨e, by simp only [Strings.UnmarshalTOML.range, set_past_done, he]⟩
        | nil => exact ⟨_, rfl⟩
        | bool _ => exact ⟨_, rfl⟩
        | int64 _ => exact ⟨_, rfl⟩
        | float64 _ => exact ⟨_, rfl⟩
        | slice _ => exact ⟨_, rfl⟩
        | other _ => exact ⟨_, rfl⟩

/-- The loop of `NetIPs.UnmarshalTOML` over a slice made for the elements still
to visit: when every element is a string that parses, the parsed values are
written in order; otherwise the loop ends with an error. -/
theorem NetIPs_range_spec {T F : Type} (UnmarshalText : String → Except String T)
    (l : List (Any F)) :
    ∀ (done pad : List T), pad.length = l.length →
      ((∀ x ∈ l, (spec.convertNetIP UnmarshalText x).isSome) →
        ∃ w, NetIPs.UnmarshalTOML.range UnmarshalText done.length l (done ++ pad)
            = .ok (done ++ w) ∧
          w.map some = l.map (spec.convertNetIP UnmarshalText)) ∧
      ((∃ x ∈ l, spec.convertNetIP UnmarshalText x = none) →
        ∃ e, NetIPs.UnmarshalTOML.range UnmarshalText done.length l (done ++ pad)
            = .error e) := by
  induction l with
  | nil =>
    intro done pad hp
    have : pad = [] := List.length_eq_zero.mp hp
    subst this
    exact ⟨fun _ => ⟨[], by simp [NetIPs.UnmarshalTOML.range]⟩, fun ⟨x, hx, _⟩ => by simp at hx⟩
  | cons x xs ih =>
    intro done pad hp
    cases pad with
    | nil => simp at hp
    | cons p ps =>
      have hps : ps.length = xs.length := by simpa using hp
      constructor
      · intro hall
        have hx := hall x (List.mem_cons_self _ _)
        have hxs : ∀ y ∈ xs, (spec.convertNetIP UnmarshalText y).isSome :=
          fun y hy => hall y (List.mem_cons_of_mem _ hy)
        cases x with
        | string s =>
          cases hu : UnmarshalText s with
          | error e => simp [spec.convertNetIP, hu] at hx
          | ok t =>
            have hstep := (ih (done ++ [t]) ps hps).1 hxs
            simp only [List.length_append, List.length_singleton] at hstep
            obtain ⟨w, hw, hm⟩ := hstep
            refine ⟨t :: w, ?_, ?_⟩
            · simp only [NetIPs.UnmarshalTOML.range, hu, set_past_done, hw]
              simp
            · simp [spec.convertNetIP, hu, hm]
        | nil => simp [spec.convertNetIP] at hx
        | bool _ => simp [spec.convertNetIP] at hx
        | int64 _ => simp [spec.convertNetIP] at hx
        | float64 _ => simp [spec.convertNetIP] at hx
        | slice _ => simp [spec.convertNetIP] at hx
        | other _ => simp [spec.convertNetIP] at hx
      · intro hex
        have hxs : (spec.convertNetIP UnmarshalText x).isSome →
            ∃ y ∈ xs, spec.convertNetIP UnmarshalText y = none := by
          intro hsome
          obtain ⟨y, hy, hn⟩ := hex
          rcases List.mem_cons.mp hy with e | hy'
          · rw [← e, hn] at hsome
            simp at hsome
          · exact ⟨y, hy', hn⟩
        cases x with
        | string s =>
          cases hu : UnmarshalText s with
          | error e => exact ⟨e, by simp [NetIPs.UnmarshalTOML.range, hu]⟩
          | ok t =>
            have hstep := (ih (done ++ [t]) ps hps).2
              (hxs (by simp [spec.convertNetIP, hu]))
            simp only [List.length_append, List.length_singleton] at hstep
            obtain ⟨e, he⟩ := hstep
            exact ⟨e, by simp only [NetIPs.UnmarshalTOML.range, hu, set_past_done, he]⟩
        | nil => exact ⟨_, rfl⟩
        | bool _ => exact ⟨_, rfl⟩
        | int64 _ => exact ⟨_, rfl⟩
        | float64 _ => exact ⟨_, rfl⟩
        | slice _ => exact ⟨_, rfl⟩
        | other _ => exact ⟨_, rfl⟩


/-- C19: `UnmarshalTOML` of a `Numbers`, `Strings` or `NetIPs` option is all or
nothing.  When the input is not a list, or some element of the list does not
convert (it has the wrong type or, for `NetIPs`, does not parse), the call
returns an error, the option keeps its list and the package state is as before
(no token is published).  When every element converts, the call returns nil,
publishes one token per registry entry, and the stored list has the length of
the input and holds, at each index, the conversion of the input element. -/
theorem UnmarshalTOML_all_or_nothing :
    (∀ (T F : Type) (ofInt64 : Int → T) (ofFloat64 : F → T) (ptr : Ptr) (opt : Numbers T)
        (input : Any F) (b : Bus),
      (((∀ l, input ≠ .slice l) ∨
          (∃ l, input = .slice l ∧ ∃ x ∈ l, spec.convertNumber ofInt64 ofFloat64 x = none)) →
        (Numbers.UnmarshalTOML ofInt64 ofFloat64 ptr opt input b).err ≠ none ∧
        (Numbers.UnmarshalTOML ofInt64 ofFloat64 ptr opt input b).opt.Value = opt.Value ∧
        (Numbers.UnmarshalTOML ofInt64 ofFloat64 ptr opt input b).bus = b) ∧
      (∀ l, input = .slice l →
        (∀ x ∈ l, (spec.convertNumber ofInt64 ofFloat64 x).isSome) →
        (Numbers.UnmarshalTOML ofInt64 ofFloat64 ptr opt input b).err = none ∧
        (Numbers.UnmarshalTOML ofInt64 ofFloat64 ptr opt input b).opt.Value.length
          = l.length ∧
        (Numbers.UnmarshalTOML ofInt64 ofFloat64 ptr opt input b).opt.Value.map some
          = l.map (spec.convertNumber ofInt64 ofFloat64) ∧
        Delivers ptr b (Numbers.UnmarshalTOML ofInt64 ofFloat64 ptr opt input b).bus)) ∧
    (∀ (F : Type) (ptr : Ptr) (opt : Strings) (input : Any F) (b : Bus),
      (((∀ l, input ≠ .slice l) ∨
          (∃ l, input = .slice l ∧ ∃ x ∈ l, spec.convertString x = none)) →
        (Strings.UnmarshalTOML ptr opt input b).err ≠ none ∧
        (Strings.UnmarshalTOML ptr opt input b).opt.Value = opt.Value ∧
        (Strings.UnmarshalTOML ptr opt input b).bus = b) ∧
      (∀ l, input = .slice l →
        (∀ x ∈ l, (spec.convertString x).isSome) →
        (Strings.UnmarshalTOML ptr opt input b).err = none ∧
        (Strings.UnmarshalTOML ptr opt input b).opt.Value.length = l.length ∧
        (Strings.UnmarshalTOML ptr opt input b).opt.Value.map some
          = l.map spec.convertString ∧
        Delivers ptr b (Strings.UnmarshalTOML ptr opt input b).bus)) ∧
    (∀ (T F : Type) (UnmarshalText : String → Except String T) (zero : T) (ptr : Ptr)
        (opt : NetIPs T) (input : Any F) (b : Bus),
      (((∀ l, input ≠ .slice l) ∨
          (∃ l, input = .slice l ∧ ∃ x ∈ l, spec.convertNetIP UnmarshalText x = none)) →
        (NetIPs.UnmarshalTOML UnmarshalText zero ptr opt input b).err ≠ none ∧
        (NetIPs.UnmarshalTOML UnmarshalText zero ptr opt input b).opt.Value = opt.Value ∧
        (NetIPs.UnmarshalTOML UnmarshalText zero ptr opt input b).bus = b) ∧
      (∀ l, input = .slice l →
        (∀ x ∈ l, (spec.convertNetIP UnmarshalText x).isSome) →
        (NetIPs.UnmarshalTOML UnmarshalText zero ptr opt input b).err = none ∧
        (NetIPs.UnmarshalTOML UnmarshalText zero ptr opt input b).opt.Value.length
          = l.length ∧
        (NetIPs.UnmarshalTOML UnmarshalText zero ptr opt input b).opt.Value.map some
          = l.map (spec.convertNetIP UnmarshalText) ∧
        Delivers ptr b (NetIPs.UnmarshalTOML UnmarshalText zero ptr opt input b).bus)) := by
  refine ⟨?_, ?_, ?_⟩
  · intro T F ofInt64 ofFloat64 ptr opt input b
    constructor
    · rintro (hns | ⟨l, rfl, hbad⟩)
      · cases input with
        | slice l => exact absurd rfl (hns l)
        | _ => exact ⟨by simp [Numbers.UnmarshalTOML], rfl, rfl⟩
      · obtain ⟨e, he⟩ := (Numbers_range_spec ofInt64 ofFloat64 l 0 []).2 hbad
        simp [Numbers.UnmarshalTOML, he]
    · rintro l rfl hall
      obtain ⟨w, hw, hm⟩ := (Numbers_range_spec ofInt64 ofFloat64 l 0 []).1 hall
      have hlen : w.length = l.length := by
        have := congrArg List.length hm
        simpa using this
      simp only [Numbers.UnmarshalTOML, hw, List.nil_append, Numbers.Store]
      exact ⟨rfl, hlen, hm, locked_delivers ptr _ b⟩
  · intro F ptr opt input b
    constructor
    · rintro (hns | ⟨l, rfl, hbad⟩)
      · cases input with
        | slice l => exact absurd rfl (hns l)
        | _ => exact ⟨by simp [Strings.UnmarshalTOML], rfl, rfl⟩
      · obtain ⟨e, he⟩ :=
          (Strings_range_spec l [] (List.replicate l.length "") (by simp)).2 hbad
        simp only [List.length_nil, List.nil_append] at he
        simp [Strings.UnmarshalTOML, he]
    · rintro l rfl hall
      obtain ⟨w, hw, hm⟩ :=
        (Strings_range_spec l [] (List.replicate l.length "") (by simp)).1 hall
      simp only [List.length_nil, List.nil_append] at hw
      have hlen : w.length = l.length := by
        have := congrArg List.length hm
        simpa using this
      simp only [Strings.UnmarshalTOML, hw, Strings.Store]
      exact ⟨rfl, hlen, hm, locked_delivers ptr _ b⟩
  · intro T F UnmarshalText zero ptr opt input b
    constructor
    · rintro (hns | ⟨l, rfl, hbad⟩)
      · cases input with
        | slice l => exact absurd rfl (hns l)
        | _ => exact ⟨by simp [NetIPs.UnmarshalTOML], rfl, rfl⟩
      · obtain ⟨e, he⟩ :=
          (NetIPs_range_spec UnmarshalText l [] (List.replicate l.length zero) (by simp)).2 hbad
        simp only [List.length_nil, List.nil_append] at he
        simp [NetIPs.UnmarshalTOML, he]
    · rintro l rfl hall
      obtain ⟨w, hw, hm⟩ :=
        (NetIPs_range_spec UnmarshalText l [] (List.replicate l.length zero) (by simp)).1 hall
      simp only [List.length_nil, List.nil_append] at hw
      have hlen : w.length = l.length := by
        have := congrArg List.length hm
        simpa using this
      simp only [NetIPs.UnmarshalTOML, hw, NetIPs.Store]
      exact ⟨rfl, hlen, hm, locked_delivers ptr _ b⟩

/-- C19 at a `Numbers[int]` holding `[7]` with the subscriber 4: the list
`[3, 2, "x"]` is rejected at its third element and `[7]` stays with nothing
sent; the list `[3, 2]` is stored. -/
theorem UnmarshalTOML_all_or_nothing_witness :
    ((Numbers.UnmarshalTOML id id 1 (NewNumbers [(7 : Int)])
        (Any.slice [.int64 3, .float64 (2 : Int), .string "x"]) ⟨[4], []⟩).err ≠ none ∧
     (Numbers.UnmarshalTOML id id 1 (NewNumbers [(7 : Int)])
        (Any.slice [.int64 3, .float64 (2 : Int), .string "x"]) ⟨[4], []⟩).opt.Value = [7] ∧
     (Numbers.UnmarshalTOML id id 1 (NewNumbers [(7 : Int)])
        (Any.slice [.int64 3, .float64 (2 : Int), .string "x"]) ⟨[4], []⟩).bus = ⟨[4], []⟩) ∧
    (Numbers.UnmarshalTOML id id 1 (NewNumbers [(7 : Int)])
        (Any.slice [.int64 3, .float64 (2 : Int)]) ⟨[4], []⟩).opt.Value = [3, 2] :=
  ⟨(UnmarshalTOML_all_or_nothing.1 Int Int id id 1 (NewNumbers [(7 : Int)])
      (Any.slice [.int64 3, .float64 (2 : Int), .string "x"]) ⟨[4], []⟩).1
      (Or.inr ⟨_, rfl, .string "x", by simp, rfl⟩),
   rfl⟩


/-! ### JSON numbers -/

/-- A number below `2^k` has at most `k` binary digits. -/
theorem bitLenAux_le (fuel : Nat) : ∀ (n k : Nat), n < 2 ^ k → float64.bitLenAux fuel n ≤ k := by
  induction fuel with
  | zero => intro n k _; simp [float64.bitLenAux]
  | succ f ih =>
    intro n k h
    by_cases h0 : n = 0
    · simp [float64.bitLenAux, h0]
    · cases k with
      | zero =>
        simp at h
        exact absurd h h0
      | succ k =>
        have hhalf : n / 2 < 2 ^ k := by
          rw [pow_succ] at h
          omega
        have := ih (n / 2) k hhalf
        simp only [float64.bitLenAux, h0, if_false]
        omega

/-- The conversion `float64(v)` is exact up to magnitude 2^53. -/
theorem float64_ofInt_exact (v : Int) (h : v.natAbs ≤ 2 ^ 53) : float64.ofInt v = v := by
  have hr : float64.roundNat v.natAbs = v.natAbs := by
    rcases Nat.lt_or_eq_of_le h with hlt | heq
    · have hb : float64.bitLen v.natAbs ≤ 53 := bitLenAux_le _ _ 53 hlt
      simp [float64.roundNat, hb]
    · rw [heq]
      decide
  unfold float64.ofInt
  rw [hr]
  split_ifs with hneg <;> omega

/-- C20, as the claim states it, fails for `int64`: the value 2^53 + 1 becomes
the float64 2^53, whose JSON text is `9007199254740992`, and `UnmarshalJSON`
of that text stores 2^53, not the value that was marshalled. -/
theorem Number_JSON_round_trip_loses_int64 :
    (-9223372036854775808 : Int) ≤ 9007199254740993 ∧
    (9007199254740993 : Int) ≤ 9223372036854775807 ∧
    float64.ofInt 9007199254740993 = 9007199254740992 ∧
    Number.MarshalJSON float64.ofInt (fun f => .ok (formatInt f))
      (NewNumber (0 : Int) 9007199254740993) = .ok "9007199254740992" ∧
    (Number.UnmarshalJSON (fun _ => (Except.ok 9007199254740992 : Except String Int))
      (float64.toInt (-9223372036854775808) 9223372036854775807 id) 0
      (NewNumber (0 : Int) 9007199254740993) "9007199254740992" ⟨[], []⟩).err = none ∧
    (Number.UnmarshalJSON (fun _ => (Except.ok 9007199254740992 : Except String Int))
      (float64.toInt (-9223372036854775808) 9223372036854775807 id) 0
      (NewNumber (0 : Int) 9007199254740993) "9007199254740992" ⟨[], []⟩).opt.Value
      = 9007199254740992 ∧
    (9007199254740992 : Int) ≠ 9007199254740993 :=
  ⟨by decide, by decide, by decide, rfl, by decide, by decide, by decide⟩

/-- C20, amended: for an unbounded `Number` of an integer kind with values
`lo .. hi` that holds a value of magnitude at most 2^53, when `json.Marshal`
renders the float64 of the value as `text` and `json.Unmarshal` reads `text`
back as that float64, `MarshalJSON` returns `text` and `UnmarshalJSON(text)`
returns nil and leaves `Value()` equal to the value before: up to 2^53 the
conversion to float64 and back is the identity. -/
theorem Number_JSON_round_trip_up_to_2_pow_53 (Marshal : Int → Except String String)
    (Unmarshal : String → Except String Int) (lo hi : Int) (impl : Int → Int)
    (ptr : Ptr) (opt : Number Int) (b : Bus) (text : String)
    (hunb : opt.min = opt.max) (hlo : lo ≤ opt.v) (hhi : opt.v ≤ hi)
    (hsmall : opt.v.natAbs ≤ 2 ^ 53)
    (hm : Marshal (float64.ofInt opt.v) = .ok text)
    (hu : Unmarshal text = .ok (float64.ofInt opt.v)) :
    Number.MarshalJSON float64.ofInt Marshal opt = .ok text ∧
    (Number.UnmarshalJSON Unmarshal (float64.toInt lo hi impl) ptr opt text b).err = none ∧
    (Number.UnmarshalJSON Unmarshal (float64.toInt lo hi impl) ptr opt text b).opt.Value
      = opt.Value ∧
    float64.toInt lo hi impl (float64.ofInt opt.v) = opt.v := by
  have hex := float64_ofInt_exact opt.v hsmall
  have hback : float64.toInt lo hi impl (float64.ofInt opt.v) = opt.v := by
    rw [hex]
    simp [float64.toInt, hlo, hhi]
  refine ⟨hm, ?_, ?_, hback⟩
  · simp [Number.UnmarshalJSON, hu, hback, Number.Store, hunb, locked]
  · simp [Number.UnmarshalJSON, hu, hback, Number.Store, hunb, locked, Number.Value]

/-- C20 amended, at an `int64` option made by `NewNumber(321)`: the float64 is
321, its JSON text `321` reads back as 321, and the value after the round trip
is 321. -/
theorem Number_JSON_round_trip_up_to_2_pow_53_witness :
    Number.MarshalJSON float64.ofInt (fun f => .ok (formatInt f)) (NewNumber (0 : Int) 321)
      = .ok "321" ∧
    (Number.UnmarshalJSON (fun _ => (Except.ok 321 : Except String Int))
      (float64.toInt (-9223372036854775808) 9223372036854775807 id) 0
      (NewNumber (0 : Int) 321) "321" ⟨[], []⟩).opt.Value = 321 :=
  ⟨(Number_JSON_round_trip_up_to_2_pow_53 (fun f => .ok (formatInt f))
      (fun _ => (Except.ok 321 : Except String Int))
      (-9223372036854775808) 9223372036854775807 id 0 (NewNumber (0 : Int) 321) ⟨[], []⟩ "321"
      rfl (by decide) (by decide) (by decide) rfl rfl).1,
   (Number_JSON_round_trip_up_to_2_pow_53 (fun f => .ok (formatInt f))
      (fun _ => (Except.ok 321 : Except String Int))
      (-9223372036854775808) 9223372036854775807 id 0 (NewNumber (0 : Int) 321) ⟨[], []⟩ "321"
      rfl (by decide) (by decide) (by decide) rfl rfl).2.2.1⟩


/-! ### Inactive bounds, event order, number lists, acceptance set -/

/-- C22: on a `Number`, `Duration` or `Time` whose `min` equals its `max`
(for a `Time`: the same instant), `Store(v)` returns nil for every `v` and
`Value()` is then `v`; the options made by `NewNumber`, `NewDuration` and
`NewTime` are of this kind. -/
theorem Store_unbounded_accepts_all :
    (∀ (T : Type) [Numeric T] (ptr : Ptr) (opt : Number T) (v : T) (b : Bus),
      opt.min = opt.max →
      (Number.Store ptr opt v b).err = none ∧ (Number.Store ptr opt v b).opt.Value = v) ∧
    (∀ (ptr : Ptr) (opt : Duration) (v : time.Duration) (b : Bus),
      opt.min = opt.max →
      (Duration.Store ptr opt v b).err = none ∧ (Duration.Store ptr opt v b).opt.Value = v) ∧
    (∀ (ptr : Ptr) (opt : Time) (v : time.Time) (b : Bus),
      opt.min.Equal opt.max = true →
      (Time.Store ptr opt v b).err = none ∧ (Time.Store ptr opt v b).opt.Value = v) ∧
    (∀ (T : Type) (zero v0 : T), (NewNumber zero v0).min = (NewNumber zero v0).max) ∧
    (∀ v0 : time.Duration, (NewDuration v0).min = (NewDuration v0).max) ∧
    (∀ v0 : time.Time, (NewTime v0).min.Equal (NewTime v0).max = true) ∧
    (∀ t u : time.Time, t = u → t.Equal u = true) := by
  refine ⟨?_, ?_, ?_, ?_, ?_, ?_, ?_⟩
  · intro T _ ptr opt v b h
    simp [Number.Store, h, locked, Number.Value]
  · intro ptr opt v b h
    simp [Duration.Store, h, locked, Duration.Value]
  · intro ptr opt v b h
    simp [Time.Store, h, locked, Time.Value]
  · intro T zero v0
    rfl
  · intro v0
    rfl
  · intro v0
    simp [NewTime, time.Time.Equal]
  · intro t u h
    simp [time.Time.Equal, h]

/-- C22 at `LimitedDuration(3s, 5s, 5s).Store(10s)` and at
`NewNumber[int](123).Store(-7)`: both are accepted and stored. -/
theorem Store_unbounded_accepts_all_witness :
    ((Duration.Store 0 (LimitedDuration (3 * time.Second) (5 * time.Second)
        (5 * time.Second)) (10 * time.Second) ⟨[], []⟩).err = none ∧
     (Duration.Store 0 (LimitedDuration (3 * time.Second) (5 * time.Second)
        (5 * time.Second)) (10 * time.Second) ⟨[], []⟩).opt.Value = 10 * time.Second) ∧
    ((Number.Store 0 (NewNumber (0 : Int) 123) (-7) ⟨[], []⟩).err = none ∧
     (Number.Store 0 (NewNumber (0 : Int) 123) (-7) ⟨[], []⟩).opt.Value = -7) :=
  ⟨Store_unbounded_accepts_all.2.1 0 (LimitedDuration (3 * time.Second) (5 * time.Second)
      (5 * time.Second)) (10 * time.Second) ⟨[], []⟩ rfl,
   Store_unbounded_accepts_all.1 Int 0 (NewNumber (0 : Int) 123) (-7) ⟨[], []⟩ rfl⟩

/-- The locked tail of a `Store` performs Lock, the sends, Unlock, in this
order. -/
theorem locked_publishes {α : Type} (ptr : Ptr) (w : α) (b : Bus) :
    PublishesLocked ptr b (locked ptr w b).bus := by
  simp [PublishesLocked, locked, publish, Bus.emit]

/-- In a run of sends closed by an Unlock, with the lock held, every token is
sent while the lock is held. -/
theorem sent_in_locked_run (ptr : Ptr) (subs : List Chan) :
    spec.sentLocked true (subs.map (fun ch => Event.Send ch ptr) ++ [Event.Unlock])
      = subs.map (fun ch => (ch, ptr)) ∧
    spec.sentUnlocked true (subs.map (fun ch => Event.Send ch ptr) ++ [Event.Unlock]) = [] := by
  induction subs with
  | nil => simp [spec.sentLocked, spec.sentUnlocked]
  | cons c cs ih => simp [spec.sentLocked, spec.sentUnlocked, ih.1, ih.2]

/-- C23, as the claim states it, fails: `Store` defers `mutex.Unlock()`, so
`publish` runs before it.  One `Store` on a `Number` at address 9 with the
subscriber 7 performs Lock, the send to 7, Unlock: the token is sent while the
lock is held, and no token is sent after the release. -/
theorem Store_sends_before_unlock :
    (Number.Store 9 (NewNumber (0 : Int) 0) 3 ⟨[7], []⟩).err = none ∧
    (Number.Store 9 (NewNumber (0 : Int) 0) 3 ⟨[7], []⟩).bus.trace
      = [Event.Lock, Event.Send 7 9, Event.Unlock] ∧
    spec.sentLocked false (Number.Store 9 (NewNumber (0 : Int) 0) 3 ⟨[7], []⟩).bus.trace
      = [(7, 9)] ∧
    spec.sentUnlocked false (Number.Store 9 (NewNumber (0 : Int) 0) 3 ⟨[7], []⟩).bus.trace
      = [] := by
  decide

/-- C23, amended: the events of every successful `Store` (of a `Bool`,
`Number`, `Duration`, `Time`, `String`, `Numbers`, `Strings` or `NetIPs`
option) are, in order, Lock, the sends of the change token to each entry of the
registry, Unlock: every token is sent while the publishing `Store` holds the
exclusive lock, which is released after the last send, and no token is sent
once it is released. -/
theorem successful_Store_publishes_under_lock :
    (∀ (ptr : Ptr) (opt : BoolOpt) (v : Bool) (b : Bus),
      (BoolOpt.Store ptr opt v b).err = none →
      PublishesLocked ptr b (BoolOpt.Store ptr opt v b).bus) ∧
    (∀ (T : Type) [Numeric T] (ptr : Ptr) (opt : Number T) (v : T) (b : Bus),
      (Number.Store ptr opt v b).err = none →
      PublishesLocked ptr b (Number.Store ptr opt v b).bus) ∧
    (∀ (ptr : Ptr) (opt : Duration) (v : time.Duration) (b : Bus),
      (Duration.Store ptr opt v b).err = none →
      PublishesLocked ptr b (Duration.Store ptr opt v b).bus) ∧
    (∀ (ptr : Ptr) (opt : Time) (v : time.Time) (b : Bus),
      (Time.Store ptr opt v b).err = none →
      PublishesLocked ptr b (Time.Store ptr opt v b).bus) ∧
    (∀ (Quote : String → String) (ptr : Ptr) (opt : StringOpt) (v : String) (b : Bus),
      (StringOpt.Store Quote ptr opt v b).err = none →
      PublishesLocked ptr b (StringOpt.Store Quote ptr opt v b).bus) ∧
    (∀ (T : Type) (ptr : Ptr) (opt : Numbers T) (v : List T) (b : Bus),
      (Numbers.Store ptr opt v b).err = none →
      PublishesLocked ptr b (Numbers.Store ptr opt v b).bus) ∧
    (∀ (ptr : Ptr) (opt : Strings) (v : List String) (b : Bus),
      (Strings.Store ptr opt v b).err = none →
      PublishesLocked ptr b (Strings.Store ptr opt v b).bus) ∧
    (∀ (T : Type) (ptr : Ptr) (opt : NetIPs T) (v : List T) (b : Bus),
      (NetIPs.Store ptr opt v b).err = none →
      PublishesLocked ptr b (NetIPs.Store ptr opt v b).bus) ∧
    (∀ (ptr : Ptr) (b b1 : Bus), PublishesLocked ptr b b1 →
      spec.sentLocked false (b1.trace.drop b.trace.length)
        = b.subs.map (fun ch => (ch, ptr)) ∧
      spec.sentUnlocked false (b1.trace.drop b.trace.length) = []) := by
  refine ⟨?_, ?_, ?_, ?_, ?_, ?_, ?_, ?_, ?_⟩
  · intro ptr opt v b _
    exact locked_publishes ptr _ b
  · intro T _ ptr opt v b h
    rcases Number_Store_cases ptr opt v b with e | ⟨hn, _, _⟩
    · rw [e]; exact locked_publishes ptr _ b
    · exact absurd h hn
  · intro ptr opt v b h
    rcases Duration_Store_cases ptr opt v b with e | ⟨hn, _, _⟩
    · rw [e]; exact locked_publishes ptr _ b
    · exact absurd h hn
  · intro ptr opt v b h
    rcases Time_Store_cases ptr opt v b with e | ⟨hn, _, _⟩
    · rw [e]; exact locked_publishes ptr _ b
    · exact absurd h hn
  · intro Quote ptr opt v b h
    rcases StringOpt_Store_cases Quote ptr opt v b with e | ⟨hn, _, _⟩
    · rw [e]; exact locked_publishes ptr _ b
    · exact absurd h hn
  · intro T ptr opt v b _
    exact locked_publishes ptr _ b
  · intro ptr opt v b _
    exact locked_publishes ptr _ b
  · intro T ptr opt v b _
    exact locked_publishes ptr _ b
  · intro ptr b b1 h
    unfold PublishesLocked at h
    rw [h, List.drop_left]
    simp only [spec.sentLocked, spec.sentUnlocked]
    exact sent_in_locked_run ptr b.subs

/-- C23 amended, at `LimitedDuration(3s, 1s, 5s).Store(4s)` at address 9 with
the subscribers 4 and 5: Lock, send to 4, send to 5, Unlock. -/
theorem successful_Store_publishes_under_lock_witness :
    (Duration.Store 9 (LimitedDuration (3 * time.Second) (1 * time.Second)
        (5 * time.Second)) (4 * time.Second) ⟨[4, 5], []⟩).bus.trace
      = [Event.Lock, Event.Send 4 9, Event.Send 5 9, Event.Unlock] :=
  successful_Store_publishes_under_lock.2.2.1 9 (LimitedDuration (3 * time.Second)
    (1 * time.Second) (5 * time.Second)) (4 * time.Second) ⟨[4, 5], []⟩ (by decide)


/-- The loop of `Numbers.String` past the first element: the text built so far
ends with an element `x`, and the rest follows, each after a comma and a space. -/
theorem Numbers_StringLoop_joined {T : Type} [Numeric T] (ns : List T) :
    ∀ (i : Nat) (sb x : String),
      Numbers.StringLoop (i + 1) ns (sb ++ x)
        = sb ++ spec.joined ", " (x :: ns.map Numeric.Sprint) := by
  induction ns with
  | nil =>
    intro i sb x
    simp [Numbers.StringLoop, spec.joined]
  | cons n rest ih =>
    intro i sb x
    have hpos : i + 1 > 0 := Nat.succ_pos i
    simp only [Numbers.StringLoop, hpos, if_true, List.map_cons, spec.joined]
    rw [ih (i + 1) (sb ++ x ++ ", ") (Numeric.Sprint n)]
    simp [String.append_assoc]

/-- C24, as the claim states it, fails: `Numbers.String` writes a comma and a
space between elements, so the list 3, 2, 1 is rendered `[3, 2, 1]`, which is
not the space-joined text `[3 2 1]`. -/
theorem Numbers_String_writes_commas :
    Numbers.String (NewNumbers [(3 : Int), 2, 1]) = "[3, 2, 1]" ∧
    "[" ++ spec.joined " " ([(3 : Int), 2, 1].map Numeric.Sprint) ++ "]" = "[3 2 1]" ∧
    Numbers.String (NewNumbers [(3 : Int), 2, 1])
      ≠ "[" ++ spec.joined " " ([(3 : Int), 2, 1].map Numeric.Sprint) ++ "]" := by
  decide

/-- C24, amended: `Numbers.String` renders `[`, the numeric texts of the
elements joined by a comma and a space, and `]`; the empty list is `[]`. -/
theorem Numbers_String_joins_with_comma_space {T : Type} [Numeric T] (opt : Numbers T) :
    Numbers.String opt = "[" ++ spec.joined ", " (opt.v.map Numeric.Sprint) ++ "]" ∧
    Numbers.String (NewNumbers ([] : List T)) = "[]" := by
  constructor
  · unfold Numbers.String
    cases h : opt.v with
    | nil => simp [Numbers.StringLoop, spec.joined]
    | cons n rest =>
      have := Numbers_StringLoop_joined rest 0 "[" (Numeric.Sprint n)
      simp only [Nat.zero_add] at this
      simp only [Numbers.StringLoop, gt_iff_lt, lt_self_iff_false, if_false, List.map_cons, this]
  · rfl

/-- C25: `Number.Store(v)` returns nil exactly when `min == max` or `v == min`;
with `min != max` a `Store` that returns nil leaves `Value() == min`. -/
theorem Number_Store_acceptance_set {T : Type} [Numeric T] (ptr : Ptr) (opt : Number T)
    (v : T) (b : Bus) :
    ((Number.Store ptr opt v b).err = none ↔ (opt.min = opt.max ∨ v = opt.min)) ∧
    (opt.min ≠ opt.max → (Number.Store ptr opt v b).err = none →
      (Number.Store ptr opt v b).opt.Value = opt.min) := by
  by_cases hb : opt.min = opt.max
  · constructor
    · simp [Number.Store, hb, locked]
    · intro h
      exact absurd hb h
  · by_cases h1 : v < opt.min
    · have hne : v ≠ opt.min := ne_of_lt h1
      constructor
      · simp [Number.Store, hb, h1, hne]
      · intro _ herr
        simp [Number.Store, hb, h1] at herr
    · by_cases h2 : v > opt.min
      · have hne : v ≠ opt.min := ne_of_gt h2
        constructor
        · simp [Number.Store, hb, h1, h2, hne]
        · intro _ herr
          simp [Number.Store, hb, h1, h2] at herr
      · have he : v = opt.min := le_antisymm (not_lt.mp h2) (not_lt.mp h1)
        constructor
        · simp [Number.Store, hb, h1, h2, he, locked]
        · intro _ _
          simp [Number.Store, hb, h1, h2, locked, Number.Value, he]

/-- C25 at `LimitedNumber[int](150, 100, 200)`: `Store(100)` is accepted and
leaves the value 100, `Store(150)` and `Store(200)` are rejected. -/
theorem Number_Store_acceptance_set_witness :
    (Number.Store 0 (LimitedNumber (150 : Int) 100 200) 100 ⟨[], []⟩).opt.Value = 100 ∧
    (Number.Store 0 (LimitedNumber (150 : Int) 100 200) 150 ⟨[], []⟩).err ≠ none ∧
    (Number.Store 0 (LimitedNumber (150 : Int) 100 200) 200 ⟨[], []⟩).err ≠ none :=
  ⟨(Number_Store_acceptance_set 0 (LimitedNumber (150 : Int) 100 200) 100 ⟨[], []⟩).2
      (by decide) (by decide),
   fun h => absurd ((Number_Store_acceptance_set 0 (LimitedNumber (150 : Int) 100 200) 150
      ⟨[], []⟩).1.mp h) (by decide),
   fun h => absurd ((Number_Store_acceptance_set 0 (LimitedNumber (150 : Int) 100 200) 200
      ⟨[], []⟩).1.mp h) (by decide)⟩


/-! ### Texts given to `Bool.Set` -/

/-- C10, as the claim states it, fails: `xyz` is not a boolean literal, but
`fmt.Sscan` reads it as false without error, so `Set("xyz")` on a true `Bool`
with the subscribers 4 and 5 returns nil, stores false and sends a token to
both. -/
theorem Bool_Set_stores_false_for_word :
    spec.boolLiteral "xyz" = none ∧
    fmt.SscanBool "xyz" = some false ∧
    (NewBool true).Value = true ∧
    (BoolOpt.Set fmt.SscanBool 9 (NewBool true) "xyz" ⟨[4, 5], []⟩).err = none ∧
    (BoolOpt.Set fmt.SscanBool 9 (NewBool true) "xyz" ⟨[4, 5], []⟩).opt.Value = false ∧
    (BoolOpt.Set fmt.SscanBool 9 (NewBool true) "xyz" ⟨[4, 5], []⟩).bus.sends
      = [(4, 9), (5, 9)] := by
  decide

/-- C10, amended: with the scanner of `fmt.Sscan`, `Bool.Set(s)` on a
non-empty `s` always returns nil.  When scanning `s` fails (only white space,
or a start like `tr` that does not go on to `true`, or like `fa` that does not
go on to `false`), `Value()` and the package state are as before: no token is
published.  For every other non-empty text the scanned value is stored and
published, one token per registry entry; this is so for every boolean literal,
with its value. -/
theorem Bool_Set_noop_exactly_on_scan_error (ptr : Ptr) (opt : BoolOpt) (s : String)
    (b : Bus) (hs : s ≠ "") :
    (BoolOpt.Set fmt.SscanBool ptr opt s b).err = none ∧
    (spec.scanFails s = true →
      (BoolOpt.Set fmt.SscanBool ptr opt s b).opt.Value = opt.Value ∧
      (BoolOpt.Set fmt.SscanBool ptr opt s b).bus = b) ∧
    (spec.scanFails s = false →
      ∃ v, fmt.SscanBool s = some v ∧
        (BoolOpt.Set fmt.SscanBool ptr opt s b).opt.Value = v ∧
        Delivers ptr b (BoolOpt.Set fmt.SscanBool ptr opt s b).bus) ∧
    (∀ v, spec.boolLiteral s = some v →
      spec.scanFails s = false ∧ fmt.SscanBool s = some v) := by
  have h : s.utf8ByteSize > 0 := utf8ByteSize_pos_of_ne_empty s hs
  refine ⟨?_, ?_, ?_, ?_⟩
  · cases hp : fmt.SscanBool s with
    | none => simp [BoolOpt.Set, h, hp]
    | some v => simp [BoolOpt.Set, h, hp, BoolOpt.Store, locked]
  · intro hf
    have hp : fmt.SscanBool s = none := (SscanBool_none_iff s).mpr hf
    exact (Bool_Set_scan_error fmt.SscanBool ptr opt s b hs hp).2
  · intro hf
    cases hp : fmt.SscanBool s with
    | none =>
      have := (SscanBool_none_iff s).mp hp
      rw [hf] at this
      exact absurd this (by decide)
    | some v =>
      refine ⟨v, rfl, ?_, ?_⟩
      · simp [BoolOpt.Set, h, hp, BoolOpt.Store, locked, BoolOpt.Value]
      · simp only [BoolOpt.Set, h, if_true, hp, BoolOpt.Store]
        exact locked_delivers ptr _ b
  · intro v hv
    unfold spec.boolLiteral at hv
    split_ifs at hv with h1 h2
    · have hv' : v = true := by
        injection hv with e
        exact e.symm
      subst hv'
      simp only [List.mem_cons, List.mem_singleton, List.not_mem_nil, or_false] at h1
      rcases h1 with e | e | e | e | e | e <;> subst e <;> exact ⟨by decide, by decide⟩
    · have hv' : v = false := by
        injection hv with e
        exact e.symm
      subst hv'
      simp only [List.mem_cons, List.mem_singleton, List.not_mem_nil, or_false] at h2
      rcases h2 with e | e | e | e | e | e <;> subst e <;> exact ⟨by decide, by decide⟩

/-- C10 amended, at `Set("trx")` on a true `Bool` with two subscribers:
scanning fails after `tr`, so nothing is stored and nothing is sent. -/
theorem Bool_Set_noop_exactly_on_scan_error_witness :
    spec.scanFails "trx" = true ∧
    (BoolOpt.Set fmt.SscanBool 0 (NewBool true) "trx" ⟨[4, 5], []⟩).err = none ∧
    (BoolOpt.Set fmt.SscanBool 0 (NewBool true) "trx" ⟨[4, 5], []⟩).opt.Value = true ∧
    (BoolOpt.Set fmt.SscanBool 0 (NewBool true) "trx" ⟨[4, 5], []⟩).bus = ⟨[4, 5], []⟩ :=
  ⟨by decide,
   (Bool_Set_noop_exactly_on_scan_error 0 (NewBool true) "trx" ⟨[4, 5], []⟩ (by decide)).1,
   ((Bool_Set_noop_exactly_on_scan_error 0 (NewBool true) "trx" ⟨[4, 5], []⟩
      (by decide)).2.1 (by decide)).1,
   ((Bool_Set_noop_exactly_on_scan_error 0 (NewBool true) "trx" ⟨[4, 5], []⟩
      (by decide)).2.1 (by decide)).2⟩

end Opt
